import Mathlib

/-!
Shallow embedding of the quiz session core of `script.js` (repository
`Arr-glitch/english-quiz-data`), together with theorems checking the
natural-language specification against it.

The development has two layers:

* a pure value-level model of the answer evaluator and the session state
  machine (`isCorrect`, `checkIfAnswered`, `selectOption`, `setAnswer`,
  `nextQuestion`, `previousQuestion`, `drop`, `updateScore`,
  `showFinalScore`), where JavaScript `null`/`undefined` answers are
  `Option`, strings are `String`, and a JS `TypeError` escaping a function
  is an `Option.none` result (`Option Bool` for the evaluator queries);

* a small reference-heap model of `shuffleArray` and
  `shuffleQuestionsAndAnswers`, because the specification's claims about
  those functions concern aliasing between the shuffled result and its
  source; arrays and objects live in heap cells addressed by `Nat`
  references, and allocation appends a cell.

JavaScript `Math.random()` is modelled by an explicit stream
`g : Nat -> Nat` with a draw counter: the draw at counter `c` for bound
`n+1` is `g c % (n+1)`, mirroring `Math.floor(Math.random() * (n+1))`.
JavaScript integer-valued arithmetic (indices, lengths, the score) is
modelled exactly by `Nat`/`Int`; the one inexact computation, the final
percentage `(score / N) * 100`, is modelled by IEEE-754 binary64
rounding (`floatOfFrac` and friends), since its double rounding is
observable in the result of `Math.round`.
-/

/-! ## JavaScript string primitives used by the quiz core -/

/-- Whitespace test used by the model of `String.prototype.trim`
(the quiz data is ASCII; the ASCII whitespace characters are the
relevant ones). -/
def jsWhitespaceChar (c : Char) : Bool :=
  c == ' ' || c == '\t' || c == '\n' || c == '\r'

/-- Model of JavaScript `s.trim()`: remove leading and trailing
whitespace. -/
def jsTrim (s : String) : String :=
  ⟨((s.data.dropWhile jsWhitespaceChar).reverse.dropWhile jsWhitespaceChar).reverse⟩

/-- Model of JavaScript `c` lowercased (ASCII range, which covers the
quiz data; JS `toLowerCase` is Unicode-aware but agrees on ASCII). -/
def jsLowerChar (c : Char) : Char :=
  if 'A' ≤ c ∧ c ≤ 'Z' then Char.ofNat (c.toNat + 32) else c

/-- Model of JavaScript `s.toLowerCase()`. -/
def jsToLower (s : String) : String :=
  ⟨s.data.map jsLowerChar⟩

/-! ## Data model of the session (value level)

A stored user answer is either a string (multiple choice, dropdown,
reading passage, fill in the blank) or an array of per-blank slots
(drag and drop), where a slot is `none` for JS `null`.  An absent or
`null` entry of `userAnswers` is `Option.none` at the outer layer. -/

/-- Stored (non-null) user answer value. -/
inductive Answer where
  | str (s : String)
  | arr (slots : List (Option String))
deriving DecidableEq, Repr

/-- Sub-question of a `reading_passage` question (only `correctAnswer`
matters to the evaluator; its `options` are presentation data). -/
structure SubQuestion where
  correctAnswer : String
deriving DecidableEq, Repr

/-- Question record as consumed by the evaluator and state machine.
`type` is the variant tag (arbitrary string, so unknown types are
representable).  Fields that a variant does not carry are `none`/`[]`,
matching an absent (`undefined`) JS property.  `subQuestions` is the JS
`questions` field of `reading_passage` records. -/
structure Question where
  type : String
  correctAnswer : Option String := none
  correctOrder : Option (List String) := none
  subQuestions : List SubQuestion := []
deriving DecidableEq, Repr

/-- JavaScript strict equality `a === c` between a stored answer value
and a string-or-`undefined` (`none`) right-hand side: an array is never
strictly equal to a string or to `undefined`. -/
def strictEqStr (a : Answer) (c : Option String) : Bool :=
  match a, c with
  | .str s, some t => s == t
  | _, _ => false

/-- Model of `isCorrect(questionIndex)` (script.js lines 517-555), as a
function of the question record and the stored answer.  `none` means a
`TypeError` escapes (e.g. `.toLowerCase()` on an array or on an absent
`correctAnswer`); `some b` is a normal boolean return. -/
def isCorrect (q : Question) (ua : Option Answer) : Option Bool :=
  match ua with
  | none => some false
  | some a =>
    if q.type = "multiple_choice" ∨ q.type = "dropdown" then
      some (strictEqStr a q.correctAnswer)
    else if q.type = "fill_in_the_blank" then
      match a, q.correctAnswer with
      | .str s, some c => some (jsTrim (jsToLower s) == jsTrim (jsToLower c))
      | .str _, none => none
      | .arr _, _ => none
    else if q.type = "reading_passage" then
      match q.subQuestions with
      | sq :: _ => some (strictEqStr a (some sq.correctAnswer))
      | [] => some false
    else if q.type = "drag_and_drop" then
      match a, q.correctOrder with
      | .arr l, some co =>
          some (decide (l.length = co.length) && (l.zip co).all fun p => p.1 == some p.2)
      | _, _ => some false
    else some false

/-- Model of `checkIfAnswered()` (script.js lines 561-585), as a function
of the question record and the stored answer.  `none` means a `TypeError`
escapes (`.trim()` on an array answer of a fill-in-the-blank question). -/
def checkIfAnswered (q : Question) (ua : Option Answer) : Option Bool :=
  match ua with
  | none => some false
  | some a =>
    if q.type = "multiple_choice" ∨ q.type = "dropdown" ∨ q.type = "reading_passage" then
      some true
    else if q.type = "fill_in_the_blank" then
      match a with
      | .str s => some (decide (0 < (jsTrim s).length))
      | .arr _ => none
    else if q.type = "drag_and_drop" then
      match a, q.correctOrder with
      | .arr l, some co => some (decide (l.length = co.length) && l.all fun slot => slot.isSome)
      | _, _ => some false
    else some false

/-! ## Session state machine (value level) -/

/-- Global mutable quiz state of script.js: `questions` (working copy),
`currentQuestionIndex`, `userAnswers` and `score`. -/
structure QuizState where
  questions : List Question
  currentQuestionIndex : Nat
  userAnswers : List (Option Answer)
  score : Nat
deriving DecidableEq, Repr

/-- The `checkIfAnswered()` call on the current question of a state.  The
JS function reads `questions[currentQuestionIndex]` but only touches it
after the `null`/`undefined` early return on the answer, so a missing
question record only matters for a non-null answer (`none` result:
`TypeError` on `question.type`). -/
def checkIfAnsweredAt (s : QuizState) : Option Bool :=
  match s.userAnswers.getD s.currentQuestionIndex none with
  | none => some false
  | some a =>
    match s.questions[s.currentQuestionIndex]? with
    | some q => checkIfAnswered q (some a)
    | none => none

/-- Score recomputation loop of `updateScore` (script.js lines 499-510):
walk all questions, count the answered-and-correct ones.  The JS guard
`userAnswers[i] !== null && isCorrect(i)` is absorbed into `isCorrect`,
which returns `false` immediately on a `null`/`undefined` answer without
touching the question.  A `TypeError` escaping some `isCorrect` call
aborts the whole recomputation (`none`). -/
def computeScore : List Question → List (Option Answer) → Option Nat
  | [], _ => some 0
  | q :: qs, a :: ans => do
      let b ← isCorrect q a
      let rest ← computeScore qs ans
      pure (rest + if b then 1 else 0)
  | _ :: qs, [] => computeScore qs []

/-- Count of indices whose answer is non-null and correct; the value the
specification says the score always equals. -/
def countCorrect : List Question → List (Option Answer) → Nat
  | [], _ => 0
  | _ :: qs, [] => countCorrect qs []
  | q :: qs, a :: ans =>
      (if a.isSome ∧ isCorrect q a = some true then 1 else 0) + countCorrect qs ans

/-- Effect of calling `updateScore()` on the state: the `score` global is
set to the recomputed value; if the recomputation throws, `score` keeps
its previous value (the assignment never runs). -/
def updateScoreState (s : QuizState) : QuizState :=
  { s with score := (computeScore s.questions s.userAnswers).getD s.score }

/-- JavaScript array element assignment `l[i] = v`: in bounds it
overwrites, out of bounds it extends the array with holes (holes and JS
`null` are both `none` at the value level, via the supplied default). -/
def jsArraySet (l : List α) (i : Nat) (v : α) (hole : α) : List α :=
  if i < l.length then l.set i v
  else l ++ List.replicate (i - l.length) hole ++ [v]

/-- Model of `selectOption(option)` (script.js lines 468-478).  The JS
guard `userAnswers[currentQuestionIndex] !== null` returns early both for
an in-bounds `null` slot (proceed only then) and for an out-of-bounds
read (`undefined !== null` is true).  On success the answer is stored and
the score recomputed; `displayQuestion`/`updateNextButtonState` are
presentation-only and have no core state effect. -/
def selectOption (s : QuizState) (option : String) : QuizState :=
  match s.userAnswers[s.currentQuestionIndex]? with
  | some none =>
      updateScoreState
        { s with userAnswers :=
            jsArraySet s.userAnswers s.currentQuestionIndex (some (.str option)) none }
  | _ => s

/-- Model of `setAnswer(value)` (script.js lines 484-494): same guard as
`selectOption`, but the stored answer is `value.trim()`. -/
def setAnswer (s : QuizState) (value : String) : QuizState :=
  match s.userAnswers[s.currentQuestionIndex]? with
  | some none =>
      updateScoreState
        { s with userAnswers :=
            jsArraySet s.userAnswers s.currentQuestionIndex (some (.str (jsTrim value))) none }
  | _ => s

/-- Model of `nextQuestion()` (script.js lines 600-613).  The returned
flag records whether the `alert` warning was shown.  If
`checkIfAnswered()` throws, the exception escapes the handler: no state
change and no alert (`(s, false)`).  On the last question the function
calls `showFinalScore`, whose core effect is the `updateScore()` call.
Note `questions.length - 1` is `Nat` subtraction, which agrees with the
JS comparison for every length (for length 0 both sides reject the
increment branch). -/
def nextQuestion (s : QuizState) : QuizState × Bool :=
  match checkIfAnsweredAt s with
  | none => (s, false)
  | some answered =>
    if ¬answered ∧ s.currentQuestionIndex < s.questions.length - 1 then
      (s, true)
    else if s.currentQuestionIndex < s.questions.length - 1 then
      ({ s with currentQuestionIndex := s.currentQuestionIndex + 1 }, false)
    else
      (updateScoreState s, false)

/-- Model of `previousQuestion()` (script.js lines 618-623). -/
def previousQuestion (s : QuizState) : QuizState :=
  if 0 < s.currentQuestionIndex then
    { s with currentQuestionIndex := s.currentQuestionIndex - 1 }
  else s

/-- Model of `drop(ev)` (script.js lines 708-731) for a drop of `word`
onto the zone with `data-blank = blankIndex`.  Faithful points:

* the first guard `!userAnswers[currentQuestionIndex]` is JS truthiness,
  so a stored empty string `""` is falsy and also triggers the
  initialisation branch;
* in that branch `new Array(question.correctOrder.length)` throws a
  `TypeError` when the current question has no `correctOrder` (or does
  not exist), leaving the state unchanged;
* after initialisation the slot guard `userAnswers[...][blankIndex] !== null`
  rejects an already-filled slot and also an out-of-range index
  (`undefined !== null`); indexing a stored string answer yields a
  character or `undefined`, never `null`, so a truthy string answer is
  always rejected;
* a successful placement writes exactly one slot and recomputes the
  score (with the score keeping its old value if the recomputation
  throws). -/
def drop (s : QuizState) (blankIndex : Nat) (word : String) : QuizState :=
  let i := s.currentQuestionIndex
  let a0 := s.userAnswers.getD i none
  let falsy : Bool := match a0 with
    | none => true
    | some (.str t) => t == ""
    | some (.arr _) => false
  if falsy then
    match s.questions[i]? >>= fun q => q.correctOrder with
    | none => s
    | some co =>
      let slots : List (Option String) := List.replicate co.length none
      if blankIndex < slots.length then
        let ans' := jsArraySet s.userAnswers i (some (.arr (slots.set blankIndex (some word)))) none
        updateScoreState { s with userAnswers := ans' }
      else
        { s with userAnswers := jsArraySet s.userAnswers i (some (.arr slots)) none }
  else
    match a0 with
    | some (.arr l) =>
      match l[blankIndex]? with
      | some none =>
        let ans' := jsArraySet s.userAnswers i (some (.arr (l.set blankIndex (some word)))) none
        updateScoreState { s with userAnswers := ans' }
      | _ => s
    | _ => s

/-- Mathematical rounding of a rational, half toward positive infinity;
used to state the specification's percentage formula
`round(100 * score / N)`.  The program's own `Math.round` acts on an
IEEE-754 binary64 value and is `jsRoundFloat` below. -/
def jsRound (x : ℚ) : ℤ := ⌊x + 1/2⌋

/-- Floor of the base-2 logarithm, driven by a structural fuel argument
(halving reaches 1 within `fuel = n` steps, and the kernel can evaluate
this at concrete inputs, unlike the well-founded `Nat.log2`). -/
def natLog2Aux : Nat → Nat → Nat
  | 0, _ => 0
  | fuel + 1, n => if 2 ≤ n then natLog2Aux fuel (n / 2) + 1 else 0

/-- Floor of the base-2 logarithm of a positive natural number. -/
def natLog2 (n : Nat) : Nat := natLog2Aux n n

/-- Floor of the base-2 logarithm of the positive fraction `a / b`: the
bit-length guess `log2 a - log2 b` is off by at most one, fixed by one
comparison (`a / b < 2 ^ guess`, cleared of denominators). -/
def fracLog2 (a b : Nat) : ℤ :=
  let guess : ℤ := (natLog2 a : ℤ) - (natLog2 b : ℤ)
  if a * 2 ^ (-guess).toNat < b * 2 ^ guess.toNat then guess - 1 else guess

/-- Round the fraction `n / d` to the nearest integer, ties to even (the
IEEE-754 default rounding used by every JS arithmetic operation). -/
def natRne (n d : Nat) : Nat :=
  let q := n / d
  let r := n % d
  if 2 * r < d then q
  else if d < 2 * r then q + 1
  else if q % 2 = 0 then q else q + 1

/-- IEEE-754 binary64 value nearest to the non-negative fraction
`a / b`, as a mantissa/exponent pair `(m, f)` denoting `m * 2 ^ f` with
`2 ^ 52 ≤ m ≤ 2 ^ 53` (for `a ≠ 0`): the 53-bit significand is the
correctly rounded (nearest, ties to even) scaling of `a / b`.  This is
exact on the normal finite range, which covers every number the quiz's
percentage arithmetic produces; gradual underflow, overflow and the
`N = 0` division (unreachable: an empty bank never starts a quiz) are
out of scope. -/
def floatOfFrac (a b : Nat) : Nat × ℤ :=
  if a = 0 then (0, 0)
  else
    let e := fracLog2 a b
    let m := natRne (a * 2 ^ (52 - e).toNat) (b * 2 ^ (e - 52).toNat)
    (m, e - 52)

/-- The exact value `m * 2 ^ f` of a binary64 pair, as a natural
fraction (numerator, denominator). -/
def floatFrac (mf : Nat × ℤ) : Nat × Nat :=
  (mf.1 * 2 ^ mf.2.toNat, 2 ^ (-mf.2).toNat)

/-- `Math.round` applied to the binary64 value `m * 2 ^ f`: the nearest
integer, ties toward positive infinity, of the exact value — for
`f < 0` this is `⌊m / 2 ^ k + 1 / 2⌋ = (2 m + 2 ^ k) / 2 ^ (k + 1)` in
integer division. -/
def jsRoundFloat (mf : Nat × ℤ) : Nat :=
  if 0 ≤ mf.2 then mf.1 * 2 ^ mf.2.toNat
  else
    let k := (-mf.2).toNat
    (2 * mf.1 + 2 ^ k) / 2 ^ (k + 1)

/-- Percentage computed by `showFinalScore` (script.js line 639):
`Math.round((score / questions.length) * 100)` with JS numbers as
IEEE-754 binary64 doubles — the division `score / N` rounds to the
nearest double, the multiplication by 100 (itself exact) rounds again,
and `Math.round` rounds that double's exact value to an integer.  The
double rounding makes the result differ from the exact
`round(100 * score / N)` at some inputs (e.g. 23 of 40). -/
def showFinalScorePercentage (score total : Nat) : ℤ :=
  let d1 := floatOfFrac score total
  let p := floatFrac d1
  let d2 := floatOfFrac (p.1 * 100) p.2
  (jsRoundFloat d2 : ℤ)

/-- Feedback message selection of `showFinalScore` (script.js lines
641-651), top-down on the percentage. -/
def scoreMessage (percentage : ℤ) : String :=
  if 90 ≤ percentage then "Excellent work! You are doing great!"
  else if 70 ≤ percentage then "Good job! Keep practicing to improve."
  else if 50 ≤ percentage then "Not bad! There is room for improvement."
  else "Keep studying! Practice makes perfect."

/-- One user-driven transition of the running session: the event handlers
the page exposes while a quiz is active (`restartQuiz` replaces the
session wholesale and is modelled separately, on the shuffler side). -/
inductive Step : QuizState → QuizState → Prop where
  | select (s : QuizState) (o : String) : Step s (selectOption s o)
  | fill (s : QuizState) (v : String) : Step s (setAnswer s v)
  | next (s : QuizState) : Step s (nextQuestion s).1
  | prev (s : QuizState) : Step s (previousQuestion s)
  | place (s : QuizState) (b : Nat) (w : String) : Step s (drop s b w)

/-- Reachability through user actions within one session. -/
def Reachable : QuizState → QuizState → Prop := Relation.ReflTransGen Step

/-! ## Reference-heap model of the shufflers

`shuffleArray` and `shuffleQuestionsAndAnswers` are specified in terms of
aliasing ("must not share mutable state with `source`"), so they are
embedded over an explicit heap: arrays and objects are cells addressed by
`Nat` references, allocation appends a cell, and nothing in either
function ever overwrites an existing cell. -/

/-- JavaScript value as it appears inside a heap cell: a primitive, or a
reference to an array/object cell. -/
inductive JVal where
  | vstr (s : String)
  | vnum (n : Int)
  | vnull
  | vundefined
  | vref (r : Nat)
deriving DecidableEq, Repr

/-- Heap cell: an array (ordered elements) or an object (ordered
key-value fields, one binding per key). -/
inductive JCell where
  | arr (elems : List JVal)
  | obj (fields : List (String × JVal))
deriving DecidableEq, Repr

/-- Heap: allocation index is the list position. -/
abbrev Heap := List JCell

/-- Allocate a fresh cell, returning the extended heap and the new
reference. -/
def alloc (h : Heap) (c : JCell) : Heap × Nat :=
  (h ++ [c], h.length)

/-- Property read `fields.k` on an object's field list (an absent
property is `undefined`). -/
def getField (fs : List (String × JVal)) (k : String) : JVal :=
  match fs.find? (fun p => p.1 == k) with
  | some p => p.2
  | none => .vundefined

/-- Property write used by spread-with-override (`{ ...o, k: v }`) and by
plain assignment on a fresh copy: replace the binding if the key exists,
otherwise append it. -/
def setField (fs : List (String × JVal)) (k : String) (v : JVal) : List (String × JVal) :=
  if fs.any (fun p => p.1 == k) then
    fs.map (fun p => if p.1 == k then (p.1, v) else p)
  else fs ++ [(k, v)]

/-- JavaScript truthiness for the values of this model (objects and
arrays are always truthy). -/
def truthy : JVal → Bool
  | .vstr s => s != ""
  | .vnum n => n != 0
  | .vnull => false
  | .vundefined => false
  | .vref _ => true

/-- Swap of two list positions (out-of-range indices leave the list
unchanged; the shuffler only ever swaps in range). -/
def listSwap (l : List α) (i j : Nat) : List α :=
  match l[i]?, l[j]? with
  | some x, some y => (l.set i y).set j x
  | _, _ => l

/-- Fisher-Yates loop of `shuffleArray` (script.js lines 20-23): `k` is
the loop variable `i` (counting down to 1), `g` the random stream and `c`
the draw counter; the draw for `i = k` is `g c % (k + 1)`, the model of
`Math.floor(Math.random() * (i + 1))`. -/
def fyLoop (g : Nat → Nat) : List α → Nat → Nat → List α × Nat
  | l, 0, c => (l, c)
  | l, k + 1, c => fyLoop g (listSwap l (k + 1) (g c % (k + 2))) k (c + 1)

/-- Pure content of `shuffleArray` (script.js lines 18-25): the
Fisher-Yates permutation applied to the copied element list, starting at
index `length - 1`. -/
def fisherYates (l : List α) (g : Nat → Nat) (c : Nat) : List α × Nat :=
  fyLoop g l (l.length - 1) c

/-- Model of `shuffleArray(array)` (script.js lines 18-25) over the heap:
`const shuffled = [...array]` allocates a fresh array cell holding a copy
of the elements, the in-place swaps then permute only that fresh cell, so
the observable effect is allocating the permuted copy.  A non-array
argument never occurs in the program (the callers guard with
`Array.isArray`); that branch returns the heap unchanged. -/
def shuffleArray (h : Heap) (r : Nat) (g : Nat → Nat) (c : Nat) : Heap × Nat × Nat :=
  match h[r]? with
  | some (.arr elems) =>
      let p := fisherYates elems g c
      let a := alloc h (.arr p.1)
      (a.1, a.2, p.2)
  | _ => (h, r, c)

/-- Per-sub-question body of the `reading_passage` branch of
`shuffleQuestionsAndAnswers` (script.js lines 48-56): a sub-question
whose `options` is an array is replaced by a fresh shallow copy with a
freshly shuffled `options` array; anything else is returned as-is. -/
def shuffleSubQ (h : Heap) (v : JVal) (g : Nat → Nat) (c : Nat) : Heap × JVal × Nat :=
  match v with
  | .vref r =>
    match h[r]? with
    | some (.obj fs) =>
      match getField fs "options" with
      | .vref orf =>
        match h[orf]? with
        | some (.arr _) =>
          let s := shuffleArray h orf g c
          let a := alloc s.1 (.obj (setField fs "options" (.vref s.2.1)))
          (a.1, .vref a.2, s.2.2)
        | _ => (h, v, c)
      | _ => (h, v, c)
    | _ => (h, v, c)
  | _ => (h, v, c)

/-- Heap-threaded `map` over the sub-question list. -/
def shuffleSubQs (h : Heap) (g : Nat → Nat) : List JVal → Nat → Heap × List JVal × Nat
  | [], c => (h, [], c)
  | v :: vs, c =>
    let s := shuffleSubQ h v g c
    let t := shuffleSubQs s.1 g vs s.2.2
    (t.1, s.2.1 :: t.2.1, t.2.2)

/-- First `if` statement of the per-question body (script.js lines
42-44): when the question's `options` property is an array, replace the
copy's `options` field with a reference to a freshly shuffled copy of
it.  The field list `fs` is the shallow copy `{ ...question }` (whose
`options` value is the same reference as the original's). -/
def shuffleOptionsStep (h : Heap) (fs : List (String × JVal)) (g : Nat → Nat) (c : Nat) :
    Heap × List (String × JVal) × Nat :=
  match getField fs "options" with
  | .vref orf =>
    match h[orf]? with
    | some (.arr _) =>
      let s := shuffleArray h orf g c
      (s.1, setField fs "options" (.vref s.2.1), s.2.2)
    | _ => (h, fs, c)
  | _ => (h, fs, c)

/-- Second `if` statement of the per-question body (script.js lines
47-57): for a `reading_passage` question with a truthy `questions`
property, replace the copy's `questions` field with a fresh array of
processed sub-questions.  The `type` and `questions` properties read here
are not touched by `shuffleOptionsStep`, so reading them from the updated
copy equals the source's reads.  A truthy non-array `questions` value
would be a JS `TypeError` (`.map` missing); that branch returns the copy
unchanged and never occurs for the well-formed sources the theorems
quantify over. -/
def shuffleSubQsStep (h : Heap) (fs : List (String × JVal)) (g : Nat → Nat) (c : Nat) :
    Heap × List (String × JVal) × Nat :=
  if getField fs "type" = .vstr "reading_passage" ∧ truthy (getField fs "questions") then
    match getField fs "questions" with
    | .vref qr =>
      match h[qr]? with
      | some (.arr subs) =>
        let t := shuffleSubQs h g subs c
        let a := alloc t.1 (.arr t.2.1)
        (a.1, setField fs "questions" (.vref a.2), t.2.2)
      | _ => (h, fs, c)
    | _ => (h, fs, c)
  else (h, fs, c)

/-- Per-question body of the `map` in `shuffleQuestionsAndAnswers`
(script.js lines 38-63): take a shallow copy `{ ...question }`, run the
two field-shuffling steps on it, and allocate the copy.  Drag-and-drop
questions are deliberately left alone by the source ("The individual
blank options are not shuffled for drag and drop", script.js lines
59-61).  A non-object question value never occurs for the well-formed
sources the theorems quantify over; those branches return the value
unchanged. -/
def shuffleQuestion (h : Heap) (v : JVal) (g : Nat → Nat) (c : Nat) : Heap × JVal × Nat :=
  match v with
  | .vref r =>
    match h[r]? with
    | some (.obj fs) =>
      let s1 := shuffleOptionsStep h fs g c
      let s2 := shuffleSubQsStep s1.1 s1.2.1 g s1.2.2
      let a := alloc s2.1 (.obj s2.2.1)
      (a.1, .vref a.2, s2.2.2)
    | _ => (h, v, c)
  | _ => (h, v, c)

/-- Heap-threaded `map` over the shuffled question list (the `.map` on
script.js line 38). -/
def shuffleQuestions (h : Heap) (g : Nat → Nat) : List JVal → Nat → Heap × List JVal × Nat
  | [], c => (h, [], c)
  | v :: vs, c =>
    let s := shuffleQuestion h v g c
    let t := shuffleQuestions s.1 g vs s.2.2
    (t.1, s.2.1 :: t.2.1, t.2.2)

/-- Model of `shuffleQuestionsAndAnswers(questionsArray)` (script.js
lines 33-64): shuffle the question order into a fresh array, then `.map`
each question through `shuffleQuestion`, allocating the result array. -/
def shuffleQuestionsAndAnswers (h : Heap) (r : Nat) (g : Nat → Nat) (c : Nat) :
    Heap × Nat × Nat :=
  let s := shuffleArray h r g c
  match s.1[s.2.1]? with
  | some (.arr qs) =>
    let t := shuffleQuestions s.1 g qs s.2.2
    let a := alloc t.1 (.arr t.2.1)
    (a.1, a.2, t.2.2)
  | _ => s

/-! ## Readers over the heap, used to state the claims -/

/-- References occurring directly in a value. -/
def JVal.refs : JVal → List Nat
  | .vref r => [r]
  | _ => []

/-- References occurring directly in a cell. -/
def JCell.refs : JCell → List Nat
  | .arr es => es.flatMap JVal.refs
  | .obj fs => fs.flatMap fun p => p.2.refs

/-- Closed heap: every reference stored in a cell points inside the heap.
The question-bank heaps the program builds from JSON are closed. -/
def HeapClosed (h : Heap) : Prop :=
  ∀ cell ∈ h, ∀ r ∈ cell.refs, r < h.length

/-- Read a property of an object value. -/
def readField (h : Heap) (v : JVal) (k : String) : JVal :=
  match v with
  | .vref r =>
    match h[r]? with
    | some (.obj fs) => getField fs k
    | _ => .vundefined
  | _ => .vundefined

/-- Read the elements of an array value. -/
def readArr (h : Heap) (v : JVal) : List JVal :=
  match v with
  | .vref r =>
    match h[r]? with
    | some (.arr es) => es
    | _ => []
  | _ => []

/-- Values of a question's `correctOrder` array. -/
def correctOrderVals (h : Heap) (q : JVal) : List JVal :=
  readArr h (readField h q "correctOrder")

/-- The `sentencePart` strings of a question's blanks, in blank order
(the sentence skeleton). -/
def sentenceParts (h : Heap) (q : JVal) : List JVal :=
  (readArr h (readField h q "blanks")).map fun b => readField h b "sentencePart"

/-- Well-formed question value for the shuffler: a reference to an object
cell whose `questions` property, when the question is a truthy-`questions`
reading passage, is an array of non-null sub-question values (otherwise
the JS code would throw a `TypeError` mid-shuffle and produce nothing). -/
def WFQ (h : Heap) (v : JVal) : Prop :=
  ∃ q fs, v = .vref q ∧ h[q]? = some (.obj fs) ∧
    (getField fs "type" = .vstr "reading_passage" → truthy (getField fs "questions") →
      ∃ a es, getField fs "questions" = .vref a ∧ h[a]? = some (.arr es) ∧
        ∀ w ∈ es, w ≠ .vnull ∧ w ≠ .vundefined)

/-- Question value that is a reference to an object cell (what every
entry of a well-formed question bank is). -/
def IsQObj (h : Heap) (v : JVal) : Prop :=
  ∃ q fs, v = .vref q ∧ h[q]? = some (.obj fs)

/-- Relation between a source question value (in heap `h`) and the
shallow copy produced for it by the shuffler (in the final heap `H`):
the copy is a freshly allocated object whose fields other than `options`
and `questions` are the very same values (including shared references)
as the source's. -/
def QCopy (h H : Heap) (v v' : JVal) : Prop :=
  ∃ q fs r' fs', v = .vref q ∧ h[q]? = some (.obj fs) ∧ v' = .vref r' ∧
    h.length ≤ r' ∧ H[r']? = some (.obj fs') ∧
    ∀ k, k ≠ "options" → k ≠ "questions" → getField fs' k = getField fs k

/-! ## Concrete question banks used by counterexamples and witnesses -/

/-- One-question source heap for exercising the shuffler on a
drag-and-drop question: cell 0 is a blank's option pool, cell 1 the
blank (with its `sentencePart`), cell 2 the `blanks` array, cell 3
`correctOrder`, cell 4 the question object, cell 5 the source question
array. -/
def C1heap : Heap :=
  [ .arr [.vstr "a", .vstr "b"],
    .obj [("sentencePart", .vstr "I "), ("options", .vref 0)],
    .arr [.vref 1],
    .arr [.vstr "quickly", .vstr "run"],
    .obj [("type", .vstr "drag_and_drop"), ("blanks", .vref 2), ("correctOrder", .vref 3)],
    .arr [.vref 4] ]

/-- Result of one shuffle of `C1heap` under the all-zero draw stream. -/
def C1res : Heap × Nat × Nat := shuffleQuestionsAndAnswers C1heap 5 (fun _ => 0) 0

/-- The single question of the shuffled result of `C1heap`. -/
def C1resQ : JVal := (readArr C1res.1 (.vref C1res.2.1)).headD .vundefined

/-- Source heap for the aliasing counterexample (same shape as
`C1heap`). -/
def C2heap : Heap :=
  [ .arr [.vstr "a", .vstr "b"],
    .obj [("sentencePart", .vstr "I "), ("options", .vref 0)],
    .arr [.vref 1],
    .arr [.vstr "quickly", .vstr "run"],
    .obj [("type", .vstr "drag_and_drop"), ("blanks", .vref 2), ("correctOrder", .vref 3)],
    .arr [.vref 4] ]

/-- Result of one shuffle of `C2heap` under the all-zero draw stream. -/
def C2res : Heap × Nat × Nat := shuffleQuestionsAndAnswers C2heap 5 (fun _ => 0) 0

/-- The single question of the shuffled result of `C2heap`. -/
def C2resQ : JVal := (readArr C2res.1 (.vref C2res.2.1)).headD .vundefined

/-- The heap after writing `"MUT"` into index 0 of the nested
`correctOrder` array reached through the shuffled result. -/
def C2mutated : Heap := C2res.1.set 3 (.arr [.vstr "MUT", .vstr "run"])

/-! ## Helper lemmas: strings -/

/-- Lowercasing preserves whitespace-ness: the four whitespace characters
are fixed by `jsLowerChar`, and uppercase letters are mapped into
lowercase letters, never into whitespace. -/
theorem jsWhitespaceChar_jsLowerChar (c : Char) :
    jsWhitespaceChar (jsLowerChar c) = jsWhitespaceChar c := by
  unfold jsLowerChar
  split
  · next hAZ =>
    have hlo : 65 ≤ c.toNat := by
      have h := hAZ.1
      rw [Char.le_def] at h
      exact h
    have hhi : c.toNat ≤ 90 := by
      have h := hAZ.2
      rw [Char.le_def] at h
      exact h
    have htn : (Char.ofNat (c.toNat + 32)).toNat = c.toNat + 32 := by
      rw [Char.ofNat, dif_pos (Or.inl (by omega : c.toNat + 32 < 55296))]
      rfl
    have h1 : jsWhitespaceChar (Char.ofNat (c.toNat + 32)) = false := by
      have notWs : ∀ w : Char, w.toNat ≤ 32 → (Char.ofNat (c.toNat + 32) == w) = false := by
        intro w hw
        refine decide_eq_false fun hEq => ?_
        have h := congrArg Char.toNat hEq
        rw [htn] at h
        omega
      simp only [jsWhitespaceChar, Bool.or_eq_false_iff]
      exact ⟨⟨⟨notWs _ (by decide), notWs _ (by decide)⟩, notWs _ (by decide)⟩,
        notWs _ (by decide)⟩
    have h2 : jsWhitespaceChar c = false := by
      have notWs : ∀ w : Char, w.toNat ≤ 32 → (c == w) = false := by
        intro w hw
        refine decide_eq_false fun hEq => ?_
        have h := congrArg Char.toNat hEq
        omega
      simp only [jsWhitespaceChar, Bool.or_eq_false_iff]
      exact ⟨⟨⟨notWs _ (by decide), notWs _ (by decide)⟩, notWs _ (by decide)⟩,
        notWs _ (by decide)⟩
    rw [h1, h2]
  · rfl

/-- Whitespace characters are fixed points of `jsLowerChar`. -/
theorem jsLowerChar_of_ws (c : Char) (h : jsWhitespaceChar c = true) : jsLowerChar c = c := by
  have h' : c = ' ' ∨ c = '\t' ∨ c = '\n' ∨ c = '\r' := by
    simpa [jsWhitespaceChar, Bool.or_eq_true, beq_iff_eq, or_assoc] using h
  rcases h' with rfl | rfl | rfl | rfl <;> decide

/-- A string trims to the empty string exactly when all its characters
are whitespace. -/
theorem jsTrim_eq_empty_iff (s : String) :
    jsTrim s = "" ↔ ∀ c ∈ s.data, jsWhitespaceChar c := by
  have hdata : (jsTrim s = "") ↔
      ((s.data.dropWhile jsWhitespaceChar).reverse.dropWhile jsWhitespaceChar).reverse = [] := by
    constructor
    · intro h
      exact congrArg String.data h
    · intro h
      unfold jsTrim
      rw [h]
  rw [hdata, List.reverse_eq_nil_iff, List.dropWhile_eq_nil_iff]
  constructor
  · intro h x hx
    have hsplit := List.takeWhile_append_dropWhile (p := jsWhitespaceChar) (l := s.data)
    rw [← hsplit] at hx
    rcases List.mem_append.mp hx with hx1 | hx2
    · exact List.mem_takeWhile_imp hx1
    · exact h x (List.mem_reverse.mpr hx2)
  · intro h x hx
    exact h x ((List.dropWhile_sublist _).mem (List.mem_reverse.mp hx))

/-- A whitespace-only string is unchanged by lowercasing. -/
theorem jsToLower_of_all_ws (s : String) (h : ∀ c ∈ s.data, jsWhitespaceChar c) :
    jsToLower s = s := by
  obtain ⟨l⟩ := s
  unfold jsToLower
  have : l.map jsLowerChar = l := by
    rw [List.map_congr_left fun c hc => jsLowerChar_of_ws c (h c hc)]
    exact List.map_id l
  rw [this]

/-- If a string trims to empty, so does its lowercasing (the combination
`isCorrect` applies). -/
theorem jsTrim_jsToLower_of_trim_empty (s : String) (h : jsTrim s = "") :
    jsTrim (jsToLower s) = "" := by
  rw [jsToLower_of_all_ws s ((jsTrim_eq_empty_iff s).mp h)]
  exact h

/-- Unfolding lemma for `checkIfAnswered` on a non-null answer. -/
theorem checkIfAnswered_some (q : Question) (a : Answer) :
    checkIfAnswered q (some a) =
      (if q.type = "multiple_choice" ∨ q.type = "dropdown" ∨ q.type = "reading_passage" then
        some true
      else if q.type = "fill_in_the_blank" then
        match a with
        | .str s => some (decide (0 < (jsTrim s).length))
        | .arr _ => none
      else if q.type = "drag_and_drop" then
        match a, q.correctOrder with
        | .arr l, some co => some (decide (l.length = co.length) && l.all fun slot => slot.isSome)
        | _, _ => some false
      else some false) := rfl

/-- Unfolding lemma for `isCorrect` on a non-null answer. -/
theorem isCorrect_some (q : Question) (a : Answer) :
    isCorrect q (some a) =
      (if q.type = "multiple_choice" ∨ q.type = "dropdown" then
        some (strictEqStr a q.correctAnswer)
      else if q.type = "fill_in_the_blank" then
        match a, q.correctAnswer with
        | .str s, some c => some (jsTrim (jsToLower s) == jsTrim (jsToLower c))
        | .str _, none => none
        | .arr _, _ => none
      else if q.type = "reading_passage" then
        match q.subQuestions with
        | sq :: _ => some (strictEqStr a (some sq.correctAnswer))
        | [] => some false
      else if q.type = "drag_and_drop" then
        match a, q.correctOrder with
        | .arr l, some co =>
            some (decide (l.length = co.length) && (l.zip co).all fun p => p.1 == some p.2)
        | _, _ => some false
      else some false) := rfl

/-- When the slot list has the length of the correct order but some slot
is `null`, the element-wise comparison loop of `isCorrect` fails. -/
theorem zip_all_false_of_slot_none (l : List (Option String)) (co : List String)
    (hlen : l.length = co.length) (hnone : (l.all fun slot => slot.isSome) = false) :
    ((l.zip co).all fun p => p.1 == some p.2) = false := by
  induction l generalizing co with
  | nil => simp at hnone
  | cons a l ih =>
    cases co with
    | nil => simp at hlen
    | cons c co =>
      cases a with
      | none => simp
      | some x =>
        simp only [List.all_cons, Option.isSome_some, Bool.true_and] at hnone
        simp only [List.zip_cons_cons, List.all_cons,
          ih co (by simpa using hlen) hnone, Bool.and_false]

/-- C3, counterexample: a `fill_in_the_blank` question whose
`correctAnswer` is whitespace-only.  The empty-string answer is not
answered (`checkIfAnswered` is `false` because the trimmed answer is
empty) yet `isCorrect` is `true`, because both sides of the comparison
trim to the empty string.  This refutes the claim that
`isCorrect(question, answer) = false` whenever
`isAnswered(question, answer) = false`. -/
theorem C3_counterexample :
    checkIfAnswered { type := "fill_in_the_blank", correctAnswer := some "  " }
        (some (.str "")) = some false ∧
      isCorrect { type := "fill_in_the_blank", correctAnswer := some "  " }
        (some (.str "")) = some true := by
  constructor <;> rfl

/-- C3, amended: for every question (of any variant, including unknown
types) and every answer value, if `checkIfAnswered` returns `false` then
`isCorrect` returns `false` — provided that a `fill_in_the_blank`
question carries a `correctAnswer` that does not lowercase-and-trim to
the empty string (the counterexample `C3_counterexample` shows the
proviso is needed; every other variant needs no proviso). -/
theorem C3_amended_unanswered_implies_incorrect (q : Question) (ua : Option Answer)
    (hq : q.type = "fill_in_the_blank" →
      ∃ c, q.correctAnswer = some c ∧ jsTrim (jsToLower c) ≠ "")
    (h : checkIfAnswered q ua = some false) :
    isCorrect q ua = some false := by
  rcases ua with _ | a
  · rfl
  · rw [checkIfAnswered_some] at h
    rw [isCorrect_some]
    by_cases h1 : q.type = "multiple_choice" ∨ q.type = "dropdown"
    · rw [if_pos (by tauto)] at h
      exact absurd h (by simp)
    · rw [if_neg h1]
      by_cases h2 : q.type = "reading_passage"
      · rw [if_pos (by tauto)] at h
        exact absurd h (by simp)
      · rw [if_neg (by tauto :
          ¬(q.type = "multiple_choice" ∨ q.type = "dropdown" ∨ q.type = "reading_passage"))] at h
        by_cases h3 : q.type = "fill_in_the_blank"
        · rw [if_pos h3] at h ⊢
          obtain ⟨c, hc, hcne⟩ := hq h3
          rcases a with s | l
          · rw [hc]
            simp only [Option.some.injEq] at h ⊢
            have hlen : (jsTrim s).length = 0 := by
              by_contra hne
              rw [decide_eq_false_iff_not] at h
              omega
            have hempty : jsTrim s = "" := by
              have hnil : (jsTrim s).data = [] := List.length_eq_zero.mp hlen
              conv_lhs => rw [show jsTrim s = ⟨(jsTrim s).data⟩ from rfl, hnil]
            rw [beq_eq_false_iff_ne]
            rw [jsTrim_jsToLower_of_trim_empty s hempty]
            exact fun hEq => hcne hEq.symm
          · exact absurd h (by simp)
        · rw [if_neg h3] at h ⊢
          by_cases h4 : q.type = "drag_and_drop"
          · rw [if_pos h4] at h
            rw [if_neg h2, if_pos h4]
            rcases a with s | l
            · cases hco : q.correctOrder <;> rfl
            · cases hco : q.correctOrder with
              | none => rfl
              | some co =>
                rw [hco] at h
                simp only [Option.some.injEq] at h ⊢
                rcases Bool.and_eq_false_iff.mp h with hf | hf
                · rw [hf, Bool.false_and]
                · by_cases hl : l.length = co.length
                  · rw [zip_all_false_of_slot_none l co hl hf, Bool.and_false]
                  · rw [decide_eq_false hl, Bool.false_and]
          · rw [if_neg h2, if_neg h4]

/-- C3, witness for the amended theorem: a well-formed
`fill_in_the_blank` question with `correctAnswer = "Cat"` and a
whitespace answer. -/
theorem C3_witness :
    isCorrect { type := "fill_in_the_blank", correctAnswer := some "Cat" }
      (some (.str " ")) = some false :=
  C3_amended_unanswered_implies_incorrect _ _
    (fun _ => ⟨"Cat", rfl, by decide⟩) (by rfl)

/-! ## Helper lemmas: state operations -/

/-- The score recomputation touches only `score`. -/
theorem updateScoreState_questions (s : QuizState) :
    (updateScoreState s).questions = s.questions := rfl

/-- The score recomputation touches only `score`. -/
theorem updateScoreState_currentQuestionIndex (s : QuizState) :
    (updateScoreState s).currentQuestionIndex = s.currentQuestionIndex := rfl

/-- The score recomputation touches only `score`. -/
theorem updateScoreState_userAnswers (s : QuizState) :
    (updateScoreState s).userAnswers = s.userAnswers := rfl

/-- Writing at one array index leaves reads of a different index
unchanged, also through the hole-extending JS assignment. -/
theorem jsArraySet_getElem?_ne (l : List α) (i j : Nat) (v hole : α)
    (hij : i ≠ j) (hi : i < l.length) :
    (jsArraySet l j v hole)[i]? = l[i]? := by
  unfold jsArraySet
  split
  · exact List.getElem?_set_ne (Ne.symm hij)
  · rw [List.append_assoc, List.getElem?_append_left hi]

/-- In-bounds JS assignment is `List.set`. -/
theorem jsArraySet_of_lt (l : List α) (j : Nat) (v hole : α) (hj : j < l.length) :
    jsArraySet l j v hole = l.set j v := by
  unfold jsArraySet
  rw [if_pos hj]

/-- C4: first answer wins.  If the current question's stored answer slot
is non-null, a further `selectOption` or `setAnswer` call is a no-op
leaving the whole state unchanged; and from an unanswered current
question, `selectOption "X"` followed by `selectOption "Y"` leaves the
stored answer equal to `"X"`. -/
theorem C4_first_answer_wins (s : QuizState) (x y : String) :
    ((∃ a, s.userAnswers[s.currentQuestionIndex]? = some (some a)) →
      selectOption s x = s ∧ setAnswer s x = s) ∧
    (s.userAnswers[s.currentQuestionIndex]? = some none →
      (selectOption (selectOption s x) y).userAnswers[s.currentQuestionIndex]? =
        some (some (.str x))) := by
  have noop : ∀ (t : QuizState) (z : String) (a : Answer),
      t.userAnswers[t.currentQuestionIndex]? = some (some a) → selectOption t z = t := by
    intro t z a h
    unfold selectOption
    rw [h]
  constructor
  · rintro ⟨a, ha⟩
    refine ⟨noop s x a ha, ?_⟩
    unfold setAnswer
    rw [ha]
  · intro ha
    have hi : s.currentQuestionIndex < s.userAnswers.length :=
      (List.getElem?_eq_some.mp ha).1
    have h1 : selectOption s x = updateScoreState
        { s with userAnswers :=
            s.userAnswers.set s.currentQuestionIndex (some (.str x)) } := by
      unfold selectOption
      rw [ha, jsArraySet_of_lt _ _ _ _ hi]
    have hread : (selectOption s x).userAnswers[s.currentQuestionIndex]? =
        some (some (.str x)) := by
      rw [h1, updateScoreState_userAnswers]
      exact List.getElem?_set_eq_of_lt _ hi
    have hidx : (selectOption s x).currentQuestionIndex = s.currentQuestionIndex := by
      rw [h1, updateScoreState_currentQuestionIndex]
    have hread2 : (selectOption s x).userAnswers[(selectOption s x).currentQuestionIndex]? =
        some (some (.str x)) := by
      rw [hidx]
      exact hread
    rw [noop _ y _ hread2, hread]

/-- C4, witness: a one-question state with a stored answer rejects a new
`selectOption`, and the double-select scenario stores the first answer. -/
theorem C4_witness :
    (selectOption
        { questions := [{ type := "multiple_choice", correctAnswer := some "Paris" }],
          currentQuestionIndex := 0, userAnswers := [some (.str "Paris")], score := 1 }
        "London" =
      { questions := [{ type := "multiple_choice", correctAnswer := some "Paris" }],
        currentQuestionIndex := 0, userAnswers := [some (.str "Paris")], score := 1 }) ∧
    ((selectOption
        (selectOption
          { questions := [{ type := "multiple_choice", correctAnswer := some "Paris" }],
            currentQuestionIndex := 0, userAnswers := [none], score := 0 }
          "X")
        "Y").userAnswers[0]? = some (some (.str "X"))) :=
  ⟨((C4_first_answer_wins
      { questions := [{ type := "multiple_choice", correctAnswer := some "Paris" }],
        currentQuestionIndex := 0, userAnswers := [some (.str "Paris")], score := 1 }
      "London" "London").1 ⟨.str "Paris", by rfl⟩).1,
    (C4_first_answer_wins
      { questions := [{ type := "multiple_choice", correctAnswer := some "Paris" }],
        currentQuestionIndex := 0, userAnswers := [none], score := 0 }
      "X" "Y").2 (by rfl)⟩

/-- C5: `nextQuestion` on an unanswered non-final question makes no
state change and surfaces the alert warning (the returned flag); the
operation is a total function of the state, never an exception ending
the session. -/
theorem C5_advance_unanswered_noop (s : QuizState)
    (h1 : checkIfAnsweredAt s = some false)
    (h2 : s.currentQuestionIndex < s.questions.length - 1) :
    nextQuestion s = (s, true) := by
  unfold nextQuestion
  rw [h1]
  dsimp only
  rw [if_pos (⟨by simp, h2⟩ :
    ¬false = true ∧ s.currentQuestionIndex < s.questions.length - 1)]

/-- C5, witness: a fresh two-question session rejects advancing. -/
theorem C5_witness :
    nextQuestion
        { questions := [{ type := "multiple_choice", correctAnswer := some "Paris" },
            { type := "multiple_choice", correctAnswer := some "X" }],
          currentQuestionIndex := 0, userAnswers := [none, none], score := 0 } =
      ({ questions := [{ type := "multiple_choice", correctAnswer := some "Paris" },
            { type := "multiple_choice", correctAnswer := some "X" }],
          currentQuestionIndex := 0, userAnswers := [none, none], score := 0 }, true) :=
  C5_advance_unanswered_noop _ (by rfl) (by decide)

/-- The element-wise comparison loop of `isCorrect` for drag-and-drop,
under the length guard, succeeds exactly when every slot holds the
matching `correctOrder` word. -/
theorem zip_all_beq_iff (l : List (Option String)) (co : List String)
    (hlen : l.length = co.length) :
    (((l.zip co).all fun p => p.1 == some p.2) = true ↔
      ∀ i, (hi : i < co.length) → l[i]? = some (some co[i])) := by
  induction l generalizing co with
  | nil =>
    cases co with
    | nil => simp
    | cons c co => simp at hlen
  | cons a l ih =>
    cases co with
    | nil => simp at hlen
    | cons c co =>
      have hlen' : l.length = co.length := by simpa using hlen
      rw [List.zip_cons_cons, List.all_cons, Bool.and_eq_true, ih co hlen']
      constructor
      · rintro ⟨ha, hrest⟩ i hi
        cases i with
        | zero =>
          simp only [List.getElem?_cons_zero, List.getElem_cons_zero, Option.some.injEq]
          exact beq_iff_eq.mp ha
        | succ j =>
          simpa using hrest j (by simpa using hi)
      · intro hall
        constructor
        · have h0 := hall 0 (Nat.succ_pos _)
          simp only [List.getElem?_cons_zero, List.getElem_cons_zero, Option.some.injEq] at h0
          exact beq_iff_eq.mpr h0
        · intro j hj
          have hj1 := hall (j + 1) (by simpa using Nat.succ_lt_succ hj)
          simpa using hj1

/-- C6: for a drag-and-drop question, `isCorrect` is `true` exactly when
the answer is an array of the same length as `correctOrder` whose slot at
every position `i` holds `correctOrder[i]` (order-sensitive). -/
theorem C6_drag_and_drop_exact_order (q : Question) (co : List String) (ua : Option Answer)
    (hq : q.type = "drag_and_drop") (hco : q.correctOrder = some co) :
    (isCorrect q ua = some true ↔
      ∃ l, ua = some (.arr l) ∧ l.length = co.length ∧
        ∀ i, (hi : i < co.length) → l[i]? = some (some co[i])) := by
  rcases ua with _ | a
  · constructor
    · intro h
      exact absurd h (by simp [isCorrect])
    · rintro ⟨l, hl, -⟩
      exact Option.noConfusion hl
  · rw [isCorrect_some, hq, hco]
    rw [if_neg (by decide), if_neg (by decide), if_neg (by decide), if_pos rfl]
    rcases a with s | l
    · constructor
      · intro h
        exact absurd h (by simp)
      · rintro ⟨l, hl, -⟩
        simp at hl
    · simp only [Option.some.injEq, Answer.arr.injEq, Bool.and_eq_true, decide_eq_true_eq]
      constructor
      · rintro ⟨hlen, hall⟩
        exact ⟨l, rfl, hlen, (zip_all_beq_iff l co hlen).mp hall⟩
      · rintro ⟨l', hl', hlen, hall⟩
        obtain rfl : l = l' := hl'
        exact ⟨hlen, (zip_all_beq_iff l co hlen).mpr hall⟩

/-- C6, witness: with `correctOrder = ["quickly", "run"]`, the answer
`["quickly", "run"]` is correct and `["run", "quickly"]` is not. -/
theorem C6_witness :
    isCorrect { type := "drag_and_drop", correctOrder := some ["quickly", "run"] }
        (some (.arr [some "quickly", some "run"])) = some true ∧
      isCorrect { type := "drag_and_drop", correctOrder := some ["quickly", "run"] }
        (some (.arr [some "run", some "quickly"])) = some false :=
  ⟨(C6_drag_and_drop_exact_order _ _ _ rfl rfl).mpr
      ⟨[some "quickly", some "run"], rfl, rfl, by decide⟩,
    by decide⟩

/-- C7, counterexample: the spec's percentage formula
`round(100 * score / N)` does not match the program.  At 23 correct out
of 40 the binary64 evaluation of `(score / N) * 100` yields the double
57.49999999999999 (just below the tie), so `Math.round` returns 57,
while the exact rational formula rounds 57.5 up to 58. -/
theorem C7_counterexample :
    showFinalScorePercentage 23 40 = 57 ∧
      jsRound (100 * (23 : ℚ) / 40) = 58 := by
  constructor
  · decide
  · unfold jsRound
    norm_num

/-- C7, amended: the score is always recomputed from scratch as the
count of indices with a non-null and correct answer (whenever the
recomputation returns normally); the final percentage is `Math.round`
applied to the binary64 evaluation of `(score / N) * 100` (which can
differ from the exact `round(100 * score / N)` at near-half cases); and
the feedback tier is selected by inclusive lower bounds evaluated
top-down; in particular 7 of 10 gives 70 and the good-job tier. -/
theorem C7_score_and_banding :
    (∀ (qs : List Question) (ans : List (Option Answer)) (n : Nat),
        computeScore qs ans = some n → n = countCorrect qs ans) ∧
    (∀ p : ℤ,
        (90 ≤ p → scoreMessage p = "Excellent work! You are doing great!") ∧
        (70 ≤ p → p < 90 → scoreMessage p = "Good job! Keep practicing to improve.") ∧
        (50 ≤ p → p < 70 → scoreMessage p = "Not bad! There is room for improvement.") ∧
        (p < 50 → scoreMessage p = "Keep studying! Practice makes perfect.")) ∧
    (showFinalScorePercentage 7 10 = 70 ∧
      scoreMessage (showFinalScorePercentage 7 10) = "Good job! Keep practicing to improve.") := by
  refine ⟨?_, ?_, ?_, ?_⟩
  · intro qs
    induction qs with
    | nil =>
      intro ans n h
      obtain rfl : n = 0 := by
        cases ans <;> simpa [computeScore] using h.symm
      cases ans <;> rfl
    | cons q qs ih =>
      intro ans n h
      cases ans with
      | nil =>
        rw [show computeScore (q :: qs) [] = computeScore qs [] from rfl] at h
        rw [show countCorrect (q :: qs) [] = countCorrect qs [] from rfl]
        exact ih [] n h
      | cons a ans =>
        rw [show computeScore (q :: qs) (a :: ans) =
            (isCorrect q a).bind (fun b => (computeScore qs ans).bind
              (fun rest => some (rest + if b then 1 else 0))) from rfl] at h
        cases hb : isCorrect q a with
        | none => rw [hb] at h; exact absurd h (by simp)
        | some b =>
          rw [hb] at h
          cases hr : computeScore qs ans with
          | none => rw [hr] at h; exact absurd h (by simp)
          | some rest =>
            rw [hr] at h
            have hsome : some (rest + if b then 1 else 0) = some n := h
            injection hsome with hn
            subst hn
            rw [show countCorrect (q :: qs) (a :: ans) =
              (if a.isSome ∧ isCorrect q a = some true then 1 else 0) +
                countCorrect qs ans from rfl]
            rw [← ih ans rest hr]
            cases b with
            | false =>
              have hcond : ¬(a.isSome = true ∧ isCorrect q a = some true) := by
                rintro ⟨-, hcontra⟩
                rw [hb] at hcontra
                simp at hcontra
              rw [if_neg hcond]
              simp
            | true =>
              have hsome : a.isSome = true := by
                cases a with
                | none => exact absurd hb (by simp [isCorrect])
                | some a0 => rfl
              have hone : (if a.isSome = true ∧ isCorrect q a = some true then 1 else 0) = 1 :=
                if_pos ⟨hsome, hb⟩
              rw [hone]
              simp [Nat.add_comm]
  · intro p
    refine ⟨fun h90 => ?_, fun h70 h90 => ?_, fun h50 h70 => ?_, fun h50 => ?_⟩
    · unfold scoreMessage
      rw [if_pos h90]
    · unfold scoreMessage
      rw [if_neg (by omega), if_pos h70]
    · unfold scoreMessage
      rw [if_neg (by omega), if_neg (by omega), if_pos h50]
    · unfold scoreMessage
      rw [if_neg (by omega), if_neg (by omega), if_neg (by omega)]
  · decide
  · have h70 : showFinalScorePercentage 7 10 = 70 := by decide
    rw [h70]
    decide

/-- C7, witness: the score-as-count equation at a concrete session (one
correct multiple-choice answer) and the banding at 70. -/
theorem C7_witness :
    (1 : Nat) = countCorrect
        [{ type := "multiple_choice", correctAnswer := some "Paris" }]
        [some (.str "Paris")] ∧
      scoreMessage 70 = "Good job! Keep practicing to improve." :=
  ⟨C7_score_and_banding.1
      [{ type := "multiple_choice", correctAnswer := some "Paris" }]
      [some (.str "Paris")] 1 (by rfl),
    ((C7_score_and_banding.2.1 70).2.1 (by decide) (by decide))⟩

/-- C10: drag-and-drop placement is write-once per blank.  For the
current question with `correctOrder` of length `> blankIndex`:

* on a `null` answer slot, the drop creates the all-null slot array of
  length `correctOrder.length` and writes the dragged word only into
  slot `blankIndex`;
* if slot `blankIndex` of an existing answer array is already non-null,
  the drop leaves the entire state (hence the answer array) unchanged;
* on an existing answer array whose slot `blankIndex` is null, only that
  slot is written. -/
theorem C10_drop_write_once (s : QuizState) (q : Question) (co : List String)
    (b : Nat) (w : String)
    (hq : s.questions[s.currentQuestionIndex]? = some q)
    (hco : q.correctOrder = some co)
    (hb : b < co.length)
    (hlen : s.currentQuestionIndex < s.userAnswers.length) :
    (s.userAnswers.getD s.currentQuestionIndex none = none →
      (drop s b w).userAnswers[s.currentQuestionIndex]? =
        some (some (.arr ((List.replicate co.length none).set b (some w))))) ∧
    (∀ l : List (Option String),
      s.userAnswers.getD s.currentQuestionIndex none = some (.arr l) →
      ((∀ v, l[b]? = some (some v) → drop s b w = s) ∧
        (l[b]? = some none →
          (drop s b w).userAnswers[s.currentQuestionIndex]? =
            some (some (.arr (l.set b (some w))))))) := by
  constructor
  · intro ha
    unfold drop
    dsimp only
    rw [ha]
    have hbind : s.questions[s.currentQuestionIndex]? >>= (fun q => q.correctOrder) = some co := by
      rw [hq]
      exact hco
    rw [hbind]
    dsimp only
    rw [if_pos (show b < (List.replicate co.length (none : Option String)).length by
      simpa using hb)]
    rw [if_pos rfl]
    rw [updateScoreState_userAnswers]
    rw [jsArraySet_of_lt _ _ _ _ hlen]
    exact List.getElem?_set_eq_of_lt _ hlen
  · intro l ha
    constructor
    · intro v hv
      unfold drop
      dsimp only
      rw [ha]
      dsimp only
      rw [if_neg (by simp)]
      rw [hv]
    · intro hv
      unfold drop
      dsimp only
      rw [ha]
      dsimp only
      rw [if_neg (by simp)]
      rw [hv]
      dsimp only
      rw [updateScoreState_userAnswers]
      rw [jsArraySet_of_lt _ _ _ _ hlen]
      exact List.getElem?_set_eq_of_lt _ hlen

/-- C10, witness: concrete two-blank question; a first drop fills only
slot 1, a second drop on the filled slot 1 is rejected, a drop on slot 0
fills it. -/
theorem C10_witness :
    ((drop
        { questions := [{ type := "drag_and_drop", correctOrder := some ["quickly", "run"] }],
          currentQuestionIndex := 0, userAnswers := [none], score := 0 }
        1 "run").userAnswers[0]? = some (some (.arr [none, some "run"]))) ∧
    (drop
        { questions := [{ type := "drag_and_drop", correctOrder := some ["quickly", "run"] }],
          currentQuestionIndex := 0, userAnswers := [some (.arr [none, some "run"])], score := 0 }
        1 "quickly" =
      { questions := [{ type := "drag_and_drop", correctOrder := some ["quickly", "run"] }],
        currentQuestionIndex := 0, userAnswers := [some (.arr [none, some "run"])], score := 0 }) ∧
    ((drop
        { questions := [{ type := "drag_and_drop", correctOrder := some ["quickly", "run"] }],
          currentQuestionIndex := 0, userAnswers := [some (.arr [none, some "run"])], score := 0 }
        0 "quickly").userAnswers[0]? =
      some (some (.arr [some "quickly", some "run"]))) := by
  refine ⟨?_, ?_, ?_⟩
  · have h := (C10_drop_write_once
      { questions := [{ type := "drag_and_drop", correctOrder := some ["quickly", "run"] }],
        currentQuestionIndex := 0, userAnswers := [none], score := 0 }
      { type := "drag_and_drop", correctOrder := some ["quickly", "run"] }
      ["quickly", "run"] 1 "run" rfl rfl (by decide) (by decide)).1 rfl
    exact h
  · exact ((C10_drop_write_once
      { questions := [{ type := "drag_and_drop", correctOrder := some ["quickly", "run"] }],
        currentQuestionIndex := 0, userAnswers := [some (.arr [none, some "run"])], score := 0 }
      { type := "drag_and_drop", correctOrder := some ["quickly", "run"] }
      ["quickly", "run"] 1 "quickly" rfl rfl (by decide) (by decide)).2
      [none, some "run"] rfl).1 "run" rfl
  · have h := ((C10_drop_write_once
      { questions := [{ type := "drag_and_drop", correctOrder := some ["quickly", "run"] }],
        currentQuestionIndex := 0, userAnswers := [some (.arr [none, some "run"])], score := 0 }
      { type := "drag_and_drop", correctOrder := some ["quickly", "run"] }
      ["quickly", "run"] 0 "quickly" rfl rfl (by decide) (by decide)).2
      [none, some "run"] rfl).2 rfl
    exact h

/-! ## Helper lemmas: what each user action can touch -/

/-- The question list is never modified by `selectOption`. -/
theorem selectOption_questions (s : QuizState) (o : String) :
    (selectOption s o).questions = s.questions := by
  unfold selectOption
  split <;> rfl

/-- The question list is never modified by `setAnswer`. -/
theorem setAnswer_questions (s : QuizState) (v : String) :
    (setAnswer s v).questions = s.questions := by
  unfold setAnswer
  split <;> rfl

/-- The question list is never modified by `nextQuestion`. -/
theorem nextQuestion_questions (s : QuizState) :
    (nextQuestion s).1.questions = s.questions := by
  unfold nextQuestion
  split
  · rfl
  · split
    · rfl
    · split <;> rfl

/-- Navigation does not touch the answers. -/
theorem nextQuestion_userAnswers (s : QuizState) :
    (nextQuestion s).1.userAnswers = s.userAnswers := by
  unfold nextQuestion
  split
  · rfl
  · split
    · rfl
    · split <;> rfl

/-- The question list is never modified by `previousQuestion`. -/
theorem previousQuestion_questions (s : QuizState) :
    (previousQuestion s).questions = s.questions := by
  unfold previousQuestion
  split <;> rfl

/-- Navigation does not touch the answers. -/
theorem previousQuestion_userAnswers (s : QuizState) :
    (previousQuestion s).userAnswers = s.userAnswers := by
  unfold previousQuestion
  split <;> rfl

/-- The question list is never modified by `drop`. -/
theorem drop_questions (s : QuizState) (b : Nat) (w : String) :
    (drop s b w).questions = s.questions := by
  unfold drop
  dsimp only
  split
  · split
    · rfl
    · split <;> rfl
  · split
    · split <;> rfl
    · rfl

/-- A `selectOption` call reads and writes only the current question's
answer slot. -/
theorem selectOption_getElem?_ne (s : QuizState) (o : String) (i0 : Nat)
    (hne : i0 ≠ s.currentQuestionIndex) (hi : i0 < s.userAnswers.length) :
    (selectOption s o).userAnswers[i0]? = s.userAnswers[i0]? := by
  unfold selectOption
  split
  · rw [updateScoreState_userAnswers]
    exact jsArraySet_getElem?_ne _ _ _ _ _ hne hi
  · rfl

/-- A `setAnswer` call reads and writes only the current question's
answer slot. -/
theorem setAnswer_getElem?_ne (s : QuizState) (v : String) (i0 : Nat)
    (hne : i0 ≠ s.currentQuestionIndex) (hi : i0 < s.userAnswers.length) :
    (setAnswer s v).userAnswers[i0]? = s.userAnswers[i0]? := by
  unfold setAnswer
  split
  · rw [updateScoreState_userAnswers]
    exact jsArraySet_getElem?_ne _ _ _ _ _ hne hi
  · rfl

/-- A `drop` call reads and writes only the current question's answer
slot. -/
theorem drop_getElem?_ne (s : QuizState) (b : Nat) (w : String) (i0 : Nat)
    (hne : i0 ≠ s.currentQuestionIndex) (hi : i0 < s.userAnswers.length) :
    (drop s b w).userAnswers[i0]? = s.userAnswers[i0]? := by
  unfold drop
  dsimp only
  split
  · split
    · rfl
    · split
      · rw [updateScoreState_userAnswers]
        exact jsArraySet_getElem?_ne _ _ _ _ _ hne hi
      · exact jsArraySet_getElem?_ne _ _ _ _ _ hne hi
  · split
    · split
      · rw [updateScoreState_userAnswers]
        exact jsArraySet_getElem?_ne _ _ _ _ _ hne hi
      · rfl
    · rfl

/-- One user action preserves the stuck configuration of C9: a
`fill_in_the_blank` question (with no `correctOrder`, per the data
model) whose stored answer is the empty string keeps that answer, and
the question list never changes.  `selectOption`/`setAnswer` refuse the
non-null slot; `drop` hits the falsy-guard initialisation branch whose
`question.correctOrder.length` read throws, leaving the state
unchanged; navigation does not touch answers. -/
theorem step_preserves_stuck (s0 : QuizState) (i0 : Nat) (q : Question)
    (hcoq : q.correctOrder = none)
    {b c : QuizState} (hstep : Step b c)
    (hbq : b.questions = s0.questions)
    (hq : s0.questions[i0]? = some q)
    (hslot : b.userAnswers[i0]? = some (some (.str ""))) :
    c.questions = s0.questions ∧ c.userAnswers[i0]? = some (some (.str "")) := by
  have hi : i0 < b.userAnswers.length := (List.getElem?_eq_some.mp hslot).1
  cases hstep with
  | select o =>
    refine ⟨by rw [selectOption_questions]; exact hbq, ?_⟩
    by_cases hcur : i0 = b.currentQuestionIndex
    · have hcs : b.userAnswers[b.currentQuestionIndex]? = some (some (.str "")) :=
        hcur ▸ hslot
      unfold selectOption
      rw [hcs]
      exact hslot
    · rw [selectOption_getElem?_ne b o i0 hcur hi]
      exact hslot
  | fill v =>
    refine ⟨by rw [setAnswer_questions]; exact hbq, ?_⟩
    by_cases hcur : i0 = b.currentQuestionIndex
    · have hcs : b.userAnswers[b.currentQuestionIndex]? = some (some (.str "")) :=
        hcur ▸ hslot
      unfold setAnswer
      rw [hcs]
      exact hslot
    · rw [setAnswer_getElem?_ne b v i0 hcur hi]
      exact hslot
  | next =>
    refine ⟨by rw [nextQuestion_questions]; exact hbq, ?_⟩
    rw [nextQuestion_userAnswers]
    exact hslot
  | prev =>
    refine ⟨by rw [previousQuestion_questions]; exact hbq, ?_⟩
    rw [previousQuestion_userAnswers]
    exact hslot
  | place bk w =>
    refine ⟨by rw [drop_questions]; exact hbq, ?_⟩
    by_cases hcur : i0 = b.currentQuestionIndex
    · have ha0 : b.userAnswers.getD b.currentQuestionIndex none = some (.str "") := by
        rw [← hcur, List.getD_eq_getElem?_getD, hslot]
        rfl
      have hbindN : (b.questions[b.currentQuestionIndex]? >>=
          fun qq => qq.correctOrder) = none := by
        rw [← hcur, hbq, hq]
        exact hcoq
      unfold drop
      dsimp only
      rw [ha0, hbindN]
      exact hslot
    · rw [drop_getElem?_ne b bk w i0 hcur hi]
      exact hslot

/-- C9: on a fill-in-the-blank question with a null answer slot,
`setAnswer` with a whitespace-only (or empty) string stores the trimmed
empty string, which is non-null; from then on, in every state reachable
through user actions, the slot still holds `""`, so whenever that
question is current, `checkIfAnswered` is `false`, every further
`setAnswer` is a no-op, and `nextQuestion` (the question being
non-final) is rejected with the warning. -/
theorem C9_whitespace_fitb_stuck (s0 : QuizState) (q : Question) (v : String)
    (hq : s0.questions[s0.currentQuestionIndex]? = some q)
    (hty : q.type = "fill_in_the_blank")
    (hcoq : q.correctOrder = none)
    (hua : s0.userAnswers[s0.currentQuestionIndex]? = some none)
    (hv : jsTrim v = "")
    (hnonfinal : s0.currentQuestionIndex < s0.questions.length - 1) :
    (setAnswer s0 v).userAnswers[s0.currentQuestionIndex]? = some (some (.str "")) ∧
    ∀ s', Reachable (setAnswer s0 v) s' →
      s'.questions = s0.questions ∧
      s'.userAnswers[s0.currentQuestionIndex]? = some (some (.str "")) ∧
      (s'.currentQuestionIndex = s0.currentQuestionIndex →
        checkIfAnsweredAt s' = some false ∧
        (∀ w, setAnswer s' w = s') ∧
        nextQuestion s' = (s', true)) := by
  have hi : s0.currentQuestionIndex < s0.userAnswers.length :=
    (List.getElem?_eq_some.mp hua).1
  have hs1e : setAnswer s0 v = updateScoreState
      { s0 with userAnswers :=
          s0.userAnswers.set s0.currentQuestionIndex (some (.str (jsTrim v))) } := by
    unfold setAnswer
    rw [hua, jsArraySet_of_lt _ _ _ _ hi]
  have hslot1 : (setAnswer s0 v).userAnswers[s0.currentQuestionIndex]? =
      some (some (.str "")) := by
    rw [hs1e, updateScoreState_userAnswers, hv]
    exact List.getElem?_set_eq_of_lt _ hi
  have hq1 : (setAnswer s0 v).questions = s0.questions := setAnswer_questions s0 v
  refine ⟨hslot1, ?_⟩
  intro s' hreach
  have hinv : s'.questions = s0.questions ∧
      s'.userAnswers[s0.currentQuestionIndex]? = some (some (.str "")) := by
    induction hreach with
    | refl => exact ⟨hq1, hslot1⟩
    | tail hsteps hstep ih =>
      exact step_preserves_stuck s0 s0.currentQuestionIndex q hcoq hstep ih.1 hq ih.2
  refine ⟨hinv.1, hinv.2, ?_⟩
  intro hcur
  have hslotc : s'.userAnswers[s'.currentQuestionIndex]? = some (some (.str "")) := by
    rw [hcur]
    exact hinv.2
  have hgetD : s'.userAnswers.getD s'.currentQuestionIndex none = some (.str "") := by
    rw [List.getD_eq_getElem?_getD, hslotc]
    rfl
  have hqc : s'.questions[s'.currentQuestionIndex]? = some q := by
    rw [hcur, hinv.1]
    exact hq
  have hchk : checkIfAnsweredAt s' = some false := by
    unfold checkIfAnsweredAt
    rw [hgetD, hqc]
    dsimp only
    rw [checkIfAnswered_some, hty]
    rw [if_neg (by decide), if_pos rfl]
    rfl
  refine ⟨hchk, ?_, ?_⟩
  · intro w
    unfold setAnswer
    rw [hslotc]
  · have hlt : s'.currentQuestionIndex < s'.questions.length - 1 := by
      rw [hcur, hinv.1]
      exact hnonfinal
    unfold nextQuestion
    rw [hchk]
    dsimp only
    rw [if_pos (⟨by simp, hlt⟩ :
      ¬false = true ∧ s'.currentQuestionIndex < s'.questions.length - 1)]

/-- C9, witness: a concrete two-question session where a whitespace
answer to the first (fill-in-the-blank) question leaves it stuck at the
very next state. -/
theorem C9_witness :
    (setAnswer
        { questions := [{ type := "fill_in_the_blank", correctAnswer := some "Cat" },
            { type := "multiple_choice", correctAnswer := some "X" }],
          currentQuestionIndex := 0, userAnswers := [none, none], score := 0 }
        "   ").userAnswers[0]? = some (some (.str "")) ∧
    nextQuestion
        (setAnswer
          { questions := [{ type := "fill_in_the_blank", correctAnswer := some "Cat" },
              { type := "multiple_choice", correctAnswer := some "X" }],
            currentQuestionIndex := 0, userAnswers := [none, none], score := 0 }
          "   ") =
      (setAnswer
        { questions := [{ type := "fill_in_the_blank", correctAnswer := some "Cat" },
            { type := "multiple_choice", correctAnswer := some "X" }],
          currentQuestionIndex := 0, userAnswers := [none, none], score := 0 }
        "   ", true) := by
  have h := C9_whitespace_fitb_stuck
    { questions := [{ type := "fill_in_the_blank", correctAnswer := some "Cat" },
        { type := "multiple_choice", correctAnswer := some "X" }],
      currentQuestionIndex := 0, userAnswers := [none, none], score := 0 }
    { type := "fill_in_the_blank", correctAnswer := some "Cat" } "   "
    rfl rfl rfl rfl (by decide) (by decide)
  obtain ⟨h1, h2⟩ := h
  have h3 := h2 _ Relation.ReflTransGen.refl
  exact ⟨h1, (h3.2.2 rfl).2.2⟩

/-! ## Helper lemmas: Fisher-Yates permutes -/

/-- Moving the element at position `j` to the front while storing `a` at
position `j` is a permutation of consing `a`. -/
theorem cons_set_perm (l : List α) (j : Nat) (a x : α) (hx : l[j]? = some x) :
    List.Perm (x :: l.set j a) (a :: l) := by
  induction l generalizing j with
  | nil => simp at hx
  | cons b t ih =>
    cases j with
    | zero =>
      obtain rfl : b = x := by simpa using hx
      simpa [List.set_cons_zero] using List.Perm.swap a b t
    | succ j =>
      have hx' : t[j]? = some x := by simpa using hx
      rw [List.set_cons_succ]
      exact ((List.Perm.swap b x (t.set j a)).trans ((ih j hx').cons b)).trans
        (List.Perm.swap a b t)

/-- One swap of `shuffleArray`'s loop is a permutation (out-of-range
swaps are the identity). -/
theorem listSwap_perm (l : List α) (i j : Nat) : List.Perm (listSwap l i j) l := by
  induction l generalizing i j with
  | nil =>
    unfold listSwap
    simp
  | cons a t ih =>
    cases i with
    | zero =>
      cases j with
      | zero =>
        unfold listSwap
        rw [List.getElem?_cons_zero]
        exact List.Perm.refl _
      | succ j =>
        cases ht : t[j]? with
        | none =>
          unfold listSwap
          rw [List.getElem?_cons_zero, List.getElem?_cons_succ, ht]
        | some y =>
          unfold listSwap
          rw [List.getElem?_cons_zero, List.getElem?_cons_succ, ht]
          exact cons_set_perm t j a y ht
    | succ i =>
      cases j with
      | zero =>
        cases ht : t[i]? with
        | none =>
          unfold listSwap
          rw [List.getElem?_cons_succ, ht]
        | some x =>
          unfold listSwap
          rw [List.getElem?_cons_succ, ht, List.getElem?_cons_zero]
          exact cons_set_perm t i a x ht
      | succ j =>
        cases hti : t[i]? with
        | none =>
          unfold listSwap
          rw [List.getElem?_cons_succ, List.getElem?_cons_succ, hti]
        | some x =>
          cases htj : t[j]? with
          | none =>
            unfold listSwap
            rw [List.getElem?_cons_succ, List.getElem?_cons_succ, hti, htj]
          | some y =>
            unfold listSwap
            rw [List.getElem?_cons_succ, List.getElem?_cons_succ, hti, htj]
            have hswap := ih i j
            unfold listSwap at hswap
            rw [hti, htj] at hswap
            exact hswap.cons a

/-- The whole Fisher-Yates loop is a permutation. -/
theorem fyLoop_perm (g : Nat → Nat) (l : List α) (k c : Nat) :
    List.Perm (fyLoop g l k c).1 l := by
  induction k generalizing l c with
  | zero => exact List.Perm.refl l
  | succ k ih =>
    rw [show fyLoop g l (k + 1) c =
      fyLoop g (listSwap l (k + 1) (g c % (k + 2))) k (c + 1) from rfl]
    exact (ih _ _).trans (listSwap_perm l (k + 1) (g c % (k + 2)))

/-- The permuted copy has the same multiset of elements as the input. -/
theorem fisherYates_perm (l : List α) (g : Nat → Nat) (c : Nat) :
    List.Perm (fisherYates l g c).1 l :=
  fyLoop_perm g l (l.length - 1) c

/-- Lists of length at most one are returned unchanged (the loop body
never runs). -/
theorem fisherYates_short (l : List α) (g : Nat → Nat) (c : Nat) (h : l.length ≤ 1) :
    fisherYates l g c = (l, c) := by
  cases l with
  | nil => rfl
  | cons a t =>
    cases t with
    | nil => rfl
    | cons b t => simp at h

/-- C8: `shuffleArray` on an array cell allocates a fresh cell holding a
permutation of the elements (same multiset, same length), leaves every
existing cell — in particular the source array — untouched, returns a
reference distinct from the source, and for length 0 or 1 the copy
equals the source. -/
theorem C8_shuffle_permutation (h : Heap) (r : Nat) (S : List JVal) (g : Nat → Nat) (c : Nat)
    (hr : h[r]? = some (.arr S)) :
    ∃ S' c', shuffleArray h r g c = (h ++ [.arr S'], h.length, c') ∧
      List.Perm S' S ∧ S'.length = S.length ∧
      (∀ i, i < h.length → (h ++ [JCell.arr S'])[i]? = h[i]?) ∧
      (h ++ [JCell.arr S'])[r]? = some (.arr S) ∧
      h.length ≠ r ∧
      (S.length ≤ 1 → S' = S) := by
  have hrlt : r < h.length := (List.getElem?_eq_some.mp hr).1
  refine ⟨(fisherYates S g c).1, (fisherYates S g c).2, ?_, fisherYates_perm S g c,
    (fisherYates_perm S g c).length_eq, ?_, ?_, ?_, ?_⟩
  · unfold shuffleArray
    rw [hr]
    rfl
  · intro i hi
    exact List.getElem?_append_left hi
  · rw [List.getElem?_append_left hrlt]
    exact hr
  · omega
  · intro hshort
    rw [fisherYates_short S g c hshort]

/-- C8, witness: a concrete three-element array in a one-cell heap. -/
theorem C8_witness :
    ∃ S' c', shuffleArray [JCell.arr [.vstr "a", .vstr "b", .vstr "c"]] 0 (fun _ => 0) 0 =
        ([JCell.arr [.vstr "a", .vstr "b", .vstr "c"]] ++ [.arr S'], 1, c') ∧
      List.Perm S' [.vstr "a", .vstr "b", .vstr "c"] ∧
      S'.length = ([.vstr "a", .vstr "b", .vstr "c"] : List JVal).length ∧
      (∀ i, i < 1 → (([JCell.arr [.vstr "a", .vstr "b", .vstr "c"]] ++ [JCell.arr S'])[i]? =
        ([JCell.arr [.vstr "a", .vstr "b", .vstr "c"]] : Heap)[i]?)) ∧
      ([JCell.arr [.vstr "a", .vstr "b", .vstr "c"]] ++ [JCell.arr S'])[0]? =
        some (.arr [.vstr "a", .vstr "b", .vstr "c"]) ∧
      (1 : Nat) ≠ 0 ∧
      (([.vstr "a", .vstr "b", .vstr "c"] : List JVal).length ≤ 1 →
        S' = [.vstr "a", .vstr "b", .vstr "c"]) :=
  C8_shuffle_permutation [JCell.arr [.vstr "a", .vstr "b", .vstr "c"]] 0
    [.vstr "a", .vstr "b", .vstr "c"] (fun _ => 0) 0 rfl

/-! ## Helper lemmas: the shuffler only allocates -/

/-- `shuffleArray` only appends to the heap. -/
theorem shuffleArray_extend (h : Heap) (r : Nat) (g : Nat → Nat) (c : Nat) :
    ∃ ext, (shuffleArray h r g c).1 = h ++ ext := by
  unfold shuffleArray
  cases hr : h[r]? with
  | none => exact ⟨[], (List.append_nil h).symm⟩
  | some cell =>
    cases cell with
    | arr es => exact ⟨[.arr (fisherYates es g c).1], rfl⟩
    | obj fs => exact ⟨[], (List.append_nil h).symm⟩

/-- `shuffleSubQ` only appends to the heap. -/
theorem shuffleSubQ_extend (h : Heap) (v : JVal) (g : Nat → Nat) (c : Nat) :
    ∃ ext, (shuffleSubQ h v g c).1 = h ++ ext := by
  unfold shuffleSubQ
  cases v with
  | vref r =>
    dsimp only
    cases hr : h[r]? with
    | none => exact ⟨[], (List.append_nil h).symm⟩
    | some cell =>
      cases cell with
      | arr es => exact ⟨[], (List.append_nil h).symm⟩
      | obj fs =>
        dsimp only
        cases hf : getField fs "options" with
        | vref orf =>
          dsimp only
          cases ho : h[orf]? with
          | none => exact ⟨[], (List.append_nil h).symm⟩
          | some ocell =>
            cases ocell with
            | obj _ => exact ⟨[], (List.append_nil h).symm⟩
            | arr oes =>
              obtain ⟨e1, he1⟩ := shuffleArray_extend h orf g c
              refine ⟨e1 ++ [.obj (setField fs "options"
                (.vref (shuffleArray h orf g c).2.1))], ?_⟩
              show (alloc (shuffleArray h orf g c).1
                (.obj (setField fs "options" (.vref (shuffleArray h orf g c).2.1)))).1 = _
              unfold alloc
              rw [he1, List.append_assoc]
        | vstr _ => exact ⟨[], (List.append_nil h).symm⟩
        | vnum _ => exact ⟨[], (List.append_nil h).symm⟩
        | vnull => exact ⟨[], (List.append_nil h).symm⟩
        | vundefined => exact ⟨[], (List.append_nil h).symm⟩
  | vstr _ => exact ⟨[], (List.append_nil h).symm⟩
  | vnum _ => exact ⟨[], (List.append_nil h).symm⟩
  | vnull => exact ⟨[], (List.append_nil h).symm⟩
  | vundefined => exact ⟨[], (List.append_nil h).symm⟩

/-- `shuffleSubQs` only appends to the heap. -/
theorem shuffleSubQs_extend (h : Heap) (g : Nat → Nat) (vs : List JVal) (c : Nat) :
    ∃ ext, (shuffleSubQs h g vs c).1 = h ++ ext := by
  induction vs generalizing h c with
  | nil => exact ⟨[], (List.append_nil h).symm⟩
  | cons v vs ih =>
    obtain ⟨e1, he1⟩ := shuffleSubQ_extend h v g c
    obtain ⟨e2, he2⟩ := ih (shuffleSubQ h v g c).1 (shuffleSubQ h v g c).2.2
    refine ⟨e1 ++ e2, ?_⟩
    show (shuffleSubQs (shuffleSubQ h v g c).1 g vs (shuffleSubQ h v g c).2.2).1 = _
    rw [he2, he1, List.append_assoc]

/-- Replacing the value stored under key `k` (keys untouched) leaves
reads of other keys unchanged. -/
theorem getField_map_override (fs : List (String × JVal)) (k k' : String) (v : JVal)
    (hne : k' ≠ k) :
    getField (fs.map fun p => if p.1 == k then (p.1, v) else p) k' = getField fs k' := by
  induction fs with
  | nil => rfl
  | cons p fs ih =>
    unfold getField
    rw [List.map_cons, List.find?_cons, List.find?_cons]
    have hkey : ((if p.1 == k then (p.1, v) else p).1 == k') = (p.1 == k') := by
      split <;> rfl
    rw [hkey]
    by_cases hit : (p.1 == k') = true
    · rw [hit]
      dsimp only
      have hpk : p.1 ≠ k := fun hpk => hne (by
        have := beq_iff_eq.mp hit
        rw [← this, hpk])
      rw [if_neg (by simpa using hpk)]
    · rw [Bool.not_eq_true] at hit
      rw [hit]
      dsimp only
      unfold getField at ih
      exact ih

/-- Appending a binding for key `k` leaves reads of other keys
unchanged. -/
theorem getField_append_single (fs : List (String × JVal)) (k k' : String) (v : JVal)
    (hne : k' ≠ k) :
    getField (fs ++ [(k, v)]) k' = getField fs k' := by
  induction fs with
  | nil =>
    unfold getField
    rw [List.nil_append, List.find?_cons]
    rw [show ((k, v).1 == k') = false from beq_eq_false_iff_ne.mpr (Ne.symm hne)]
  | cons p fs ih =>
    unfold getField
    rw [List.cons_append, List.find?_cons, List.find?_cons]
    by_cases hit : (p.1 == k') = true
    · rw [hit]
    · rw [Bool.not_eq_true] at hit
      rw [hit]
      dsimp only
      unfold getField at ih
      exact ih

/-- Overriding one key of a field list leaves reads of other keys
unchanged (the spread-copy with override of the shuffler). -/
theorem getField_setField_ne (fs : List (String × JVal)) (k k' : String) (v : JVal)
    (hne : k' ≠ k) :
    getField (setField fs k v) k' = getField fs k' := by
  unfold setField
  split
  · exact getField_map_override fs k k' v hne
  · exact getField_append_single fs k k' v hne

/-- Question-object values survive heap extension. -/
theorem IsQObj_extend (h : Heap) (ext : List JCell) (v : JVal) (hv : IsQObj h v) :
    IsQObj (h ++ ext) v := by
  obtain ⟨q, fs, hveq, hq⟩ := hv
  exact ⟨q, fs, hveq, by
    rw [List.getElem?_append_left (List.getElem?_eq_some.mp hq).1]
    exact hq⟩

/-- A question copy relation survives extending the target heap. -/
theorem QCopy_extend_right (h H : Heap) (ext : List JCell) (v v' : JVal)
    (hc : QCopy h H v v') : QCopy h (H ++ ext) v v' := by
  obtain ⟨q, fs, r', fs', hveq, hq, hveq', hge, hget, hpres⟩ := hc
  refine ⟨q, fs, r', fs', hveq, hq, hveq', hge, ?_, hpres⟩
  rw [List.getElem?_append_left (List.getElem?_eq_some.mp hget).1]
  exact hget

/-- A question copy relation over an extended source heap restricts to
the original heap when the source value already lives there. -/
theorem QCopy_shrink_left (h : Heap) (e1 : List JCell) (H : Heap) (v v' : JVal)
    (hobj : IsQObj h v) (hc : QCopy (h ++ e1) H v v') : QCopy h H v v' := by
  obtain ⟨q0, fs0, hveq0, hq0⟩ := hobj
  obtain ⟨q, fs, r', fs', hveq, hq, hveq', hge, hget, hpres⟩ := hc
  obtain rfl : q0 = q := by
    rw [hveq0] at hveq
    exact JVal.vref.injEq _ _ ▸ hveq
  have hsame : (h ++ e1)[q0]? = h[q0]? :=
    List.getElem?_append_left (List.getElem?_eq_some.mp hq0).1
  obtain rfl : fs0 = fs := by
    rw [hsame, hq0] at hq
    have := Option.some.injEq _ _ ▸ hq
    exact (JCell.obj.injEq _ _ ▸ this)
  refine ⟨q0, fs0, r', fs', hveq0, hq0, hveq', ?_, hget, hpres⟩
  have : h.length ≤ (h ++ e1).length := by simp
  omega

/-- The `options`-shuffling step only appends to the heap and only
changes the `options` field of the copy. -/
theorem shuffleOptionsStep_spec (h : Heap) (fs : List (String × JVal)) (g : Nat → Nat)
    (c : Nat) :
    ∃ ext fs' c', shuffleOptionsStep h fs g c = (h ++ ext, fs', c') ∧
      ∀ k, k ≠ "options" → getField fs' k = getField fs k := by
  unfold shuffleOptionsStep
  cases hf : getField fs "options" with
  | vref orf =>
    dsimp only
    cases ho : h[orf]? with
    | none => exact ⟨[], fs, c, by rw [List.append_nil], fun _ _ => rfl⟩
    | some cell =>
      cases cell with
      | obj _ => exact ⟨[], fs, c, by rw [List.append_nil], fun _ _ => rfl⟩
      | arr es =>
        refine ⟨[.arr (fisherYates es g c).1],
          setField fs "options" (.vref h.length), (fisherYates es g c).2, ?_, ?_⟩
        · have hsa : shuffleArray h orf g c =
              (h ++ [.arr (fisherYates es g c).1], h.length, (fisherYates es g c).2) := by
            unfold shuffleArray
            rw [ho]
            rfl
          show (let s := shuffleArray h orf g c;
            (s.1, setField fs "options" (.vref s.2.1), s.2.2)) = _
          rw [hsa]
        · intro k hk
          exact getField_setField_ne fs "options" k _ hk
  | vstr _ => exact ⟨[], fs, c, by rw [List.append_nil], fun _ _ => rfl⟩
  | vnum _ => exact ⟨[], fs, c, by rw [List.append_nil], fun _ _ => rfl⟩
  | vnull => exact ⟨[], fs, c, by rw [List.append_nil], fun _ _ => rfl⟩
  | vundefined => exact ⟨[], fs, c, by rw [List.append_nil], fun _ _ => rfl⟩

/-- The sub-question step only appends to the heap and only changes the
`questions` field of the copy. -/
theorem shuffleSubQsStep_spec (h : Heap) (fs : List (String × JVal)) (g : Nat → Nat)
    (c : Nat) :
    ∃ ext fs' c', shuffleSubQsStep h fs g c = (h ++ ext, fs', c') ∧
      ∀ k, k ≠ "questions" → getField fs' k = getField fs k := by
  unfold shuffleSubQsStep
  split
  · cases hf : getField fs "questions" with
    | vref qr =>
      dsimp only
      cases hq : h[qr]? with
      | none => exact ⟨[], fs, c, by rw [List.append_nil], fun _ _ => rfl⟩
      | some cell =>
        cases cell with
        | obj _ => exact ⟨[], fs, c, by rw [List.append_nil], fun _ _ => rfl⟩
        | arr subs =>
          obtain ⟨e1, he1⟩ := shuffleSubQs_extend h g subs c
          refine ⟨e1 ++ [.arr (shuffleSubQs h g subs c).2.1],
            setField fs "questions" (.vref (shuffleSubQs h g subs c).1.length),
            (shuffleSubQs h g subs c).2.2, ?_, ?_⟩
          · show (let t := shuffleSubQs h g subs c;
              let a := alloc t.1 (.arr t.2.1);
              (a.1, setField fs "questions" (.vref a.2), t.2.2)) = _
            dsimp only
            unfold alloc
            dsimp only
            rw [he1, List.append_assoc]
          · intro k hk
            exact getField_setField_ne fs "questions" k _ hk
    | vstr _ => exact ⟨[], fs, c, by rw [List.append_nil], fun _ _ => rfl⟩
    | vnum _ => exact ⟨[], fs, c, by rw [List.append_nil], fun _ _ => rfl⟩
    | vnull => exact ⟨[], fs, c, by rw [List.append_nil], fun _ _ => rfl⟩
    | vundefined => exact ⟨[], fs, c, by rw [List.append_nil], fun _ _ => rfl⟩
  · exact ⟨[], fs, c, by rw [List.append_nil], fun _ _ => rfl⟩

/-- A question value that is a reference to an object is mapped to a
freshly allocated shallow copy whose fields other than `options` and
`questions` are untouched. -/
theorem shuffleQuestion_spec (h : Heap) (v : JVal) (g : Nat → Nat) (c : Nat)
    (q : Nat) (fs : List (String × JVal))
    (hv : v = .vref q) (hq : h[q]? = some (.obj fs)) :
    ∃ ext r' fs' c', shuffleQuestion h v g c = (h ++ ext, .vref r', c') ∧
      h.length ≤ r' ∧ (h ++ ext)[r']? = some (.obj fs') ∧
      ∀ k, k ≠ "options" → k ≠ "questions" → getField fs' k = getField fs k := by
  subst hv
  obtain ⟨e1, fs1, c1, heq1, hpres1⟩ := shuffleOptionsStep_spec h fs g c
  obtain ⟨e2, fs2, c2, heq2, hpres2⟩ := shuffleSubQsStep_spec (h ++ e1) fs1 g c1
  refine ⟨e1 ++ (e2 ++ [.obj fs2]), (h ++ e1 ++ e2).length, fs2, c2, ?_, ?_, ?_, ?_⟩
  · unfold shuffleQuestion
    dsimp only
    rw [hq]
    dsimp only
    rw [heq1]
    dsimp only
    rw [heq2]
    unfold alloc
    dsimp only
    rw [List.append_assoc, List.append_assoc]
  · have h1 : h.length ≤ (h ++ e1).length := by simp
    have h2 : (h ++ e1).length ≤ (h ++ e1 ++ e2).length := by simp
    omega
  · have hassoc : h ++ (e1 ++ (e2 ++ [JCell.obj fs2])) = (h ++ e1 ++ e2) ++ [.obj fs2] := by
      simp [List.append_assoc]
    rw [hassoc, List.getElem?_concat_length]
  · intro k hko hkq
    rw [hpres2 k hkq, hpres1 k hko]

/-- The `.map` over the shuffled question list allocates a fresh shallow
copy for every (object-valued) question. -/
theorem shuffleQuestions_spec (h : Heap) (g : Nat → Nat) (vs : List JVal) (c : Nat)
    (hwf : ∀ v ∈ vs, IsQObj h v) :
    ∃ H vs' c', shuffleQuestions h g vs c = (H, vs', c') ∧ (∃ ext, H = h ++ ext) ∧
      vs'.length = vs.length ∧ ∀ v' ∈ vs', ∃ v ∈ vs, QCopy h H v v' := by
  induction vs generalizing h c with
  | nil =>
    refine ⟨h, [], c, rfl, ⟨[], by rw [List.append_nil]⟩, rfl, by simp⟩
  | cons v vs ih =>
    obtain ⟨q, fs, hveq, hq⟩ := hwf v (List.mem_cons_self v vs)
    obtain ⟨e1, r', fs', c1, heq1, hge1, hget1, hpres1⟩ :=
      shuffleQuestion_spec h v g c q fs hveq hq
    have hwf' : ∀ w ∈ vs, IsQObj (h ++ e1) w := fun w hw =>
      IsQObj_extend h e1 w (hwf w (List.mem_cons_of_mem v hw))
    obtain ⟨H2, vs', c2, heq2, ⟨e2, he2⟩, hlen2, hcopy2⟩ := ih (h ++ e1) c1 hwf'
    refine ⟨H2, .vref r' :: vs', c2, ?_, ⟨e1 ++ e2, by rw [he2, List.append_assoc]⟩, ?_, ?_⟩
    · show (let s := shuffleQuestion h v g c;
        let t := shuffleQuestions s.1 g vs s.2.2;
        (t.1, s.2.1 :: t.2.1, t.2.2)) = _
      rw [heq1]
      dsimp only
      rw [heq2]
    · simp [hlen2]
    · intro w' hw'
      rcases List.mem_cons.mp hw' with rfl | hw'
      · refine ⟨v, List.mem_cons_self v vs, ?_⟩
        have hhead : QCopy h (h ++ e1) v (.vref r') :=
          ⟨q, fs, r', fs', hveq, hq, rfl, hge1, hget1, hpres1⟩
        rw [he2]
        exact QCopy_extend_right h (h ++ e1) e2 v (.vref r') hhead
      · obtain ⟨w, hwmem, hqc⟩ := hcopy2 w' hw'
        exact ⟨w, List.mem_cons_of_mem v hwmem,
          QCopy_shrink_left h e1 H2 w w' (hwf w (List.mem_cons_of_mem v hwmem)) hqc⟩

/-- Master lemma for `shuffleQuestionsAndAnswers` on a well-formed
source: the heap is only extended, the result is a freshly allocated
array whose elements are fresh shallow copies of the source questions
(in some permuted order), with all fields except `options` and
`questions` shared with the source question. -/
theorem shuffleQuestionsAndAnswers_spec (h : Heap) (r : Nat) (qs : List JVal)
    (g : Nat → Nat) (c : Nat)
    (hr : h[r]? = some (.arr qs)) (hwf : ∀ v ∈ qs, IsQObj h v) :
    ∃ H rr c' qs', shuffleQuestionsAndAnswers h r g c = (H, rr, c') ∧
      (∃ ext, H = h ++ ext) ∧ h.length ≤ rr ∧ H[rr]? = some (.arr qs') ∧
      qs'.length = qs.length ∧ ∀ v' ∈ qs', ∃ v ∈ qs, QCopy h H v v' := by
  have hsa : shuffleArray h r g c =
      (h ++ [.arr (fisherYates qs g c).1], h.length, (fisherYates qs g c).2) := by
    unfold shuffleArray
    rw [hr]
    rfl
  have hperm := fisherYates_perm qs g c
  have hget1 : (h ++ [JCell.arr (fisherYates qs g c).1])[h.length]? =
      some (.arr (fisherYates qs g c).1) := List.getElem?_concat_length _ _
  have hwf1 : ∀ v ∈ (fisherYates qs g c).1, IsQObj (h ++ [JCell.arr (fisherYates qs g c).1]) v :=
    fun v hv => IsQObj_extend h _ v (hwf v (hperm.mem_iff.mp hv))
  obtain ⟨H2, vs', c2, heq2, ⟨e2, he2⟩, hlen2, hcopy2⟩ :=
    shuffleQuestions_spec (h ++ [.arr (fisherYates qs g c).1]) g (fisherYates qs g c).1
      (fisherYates qs g c).2 hwf1
  refine ⟨H2 ++ [.arr vs'], H2.length, c2, vs', ?_, ?_, ?_, ?_, ?_, ?_⟩
  · unfold shuffleQuestionsAndAnswers
    rw [hsa]
    dsimp only
    rw [hget1]
    dsimp only
    rw [heq2]
    rfl
  · refine ⟨[.arr (fisherYates qs g c).1] ++ e2 ++ [.arr vs'], ?_⟩
    rw [he2]
    simp [List.append_assoc]
  · have hlen : h.length ≤ (h ++ [JCell.arr (fisherYates qs g c).1]).length := by simp
    have hlen' : (h ++ [JCell.arr (fisherYates qs g c).1]).length ≤ H2.length := by
      rw [he2]
      simp
    have : H2.length ≤ (H2 ++ [JCell.arr vs']).length := by simp
    omega
  · exact List.getElem?_concat_length _ _
  · rw [hlen2, hperm.length_eq]
  · intro v' hv'
    obtain ⟨v, hvmem, hqc⟩ := hcopy2 v' hv'
    refine ⟨v, hperm.mem_iff.mp hvmem, ?_⟩
    exact QCopy_extend_right h H2 [.arr vs'] v v'
      (QCopy_shrink_left h [.arr (fisherYates qs g c).1] H2 v v'
        (hwf v (hperm.mem_iff.mp hvmem)) hqc)

/-! ## Helper lemmas: reading through a closed heap survives extension -/

/-- Reading a property of an object cell. -/
theorem readField_obj (H : Heap) (r : Nat) (fs : List (String × JVal)) (k : String)
    (h : H[r]? = some (.obj fs)) : readField H (.vref r) k = getField fs k := by
  unfold readField
  dsimp only
  rw [h]

/-- A reference stored in a field of an in-heap object cell points into
the heap. -/
theorem getField_ref_lt (h : Heap) (hclosed : HeapClosed h) (q : Nat)
    (fs : List (String × JVal)) (hq : h[q]? = some (.obj fs)) (k : String) (b : Nat)
    (hf : getField fs k = .vref b) : b < h.length := by
  have hmem : JCell.obj fs ∈ h := by
    obtain ⟨hlt, hgeq⟩ := List.getElem?_eq_some.mp hq
    exact hgeq ▸ List.getElem_mem hlt
  unfold getField at hf
  cases hfind : fs.find? (fun p => p.1 == k) with
  | none =>
    rw [hfind] at hf
    exact absurd hf (by simp)
  | some p =>
    rw [hfind] at hf
    have hp : p ∈ fs := List.mem_of_find?_eq_some hfind
    refine hclosed _ hmem b ?_
    show b ∈ (JCell.obj fs).refs
    unfold JCell.refs
    refine List.mem_flatMap.mpr ⟨p, hp, ?_⟩
    rw [show p.2 = JVal.vref b from hf]
    exact List.mem_singleton_self b

/-- A reference among the elements of an in-heap array cell points into
the heap. -/
theorem arrElem_ref_lt (h : Heap) (hclosed : HeapClosed h) (a : Nat) (es : List JVal)
    (ha : h[a]? = some (.arr es)) (b : JVal) (hb : b ∈ es) (rb : Nat)
    (hbr : b = .vref rb) : rb < h.length := by
  have hmem : JCell.arr es ∈ h := by
    obtain ⟨hlt, hgeq⟩ := List.getElem?_eq_some.mp ha
    exact hgeq ▸ List.getElem_mem hlt
  refine hclosed _ hmem rb ?_
  show rb ∈ (JCell.arr es).refs
  unfold JCell.refs
  refine List.mem_flatMap.mpr ⟨b, hb, ?_⟩
  rw [hbr]
  exact List.mem_singleton_self rb

/-- Reading the elements of a value whose possible reference points into
`h` gives the same answer in any extension of `h`. -/
theorem readArr_extend (h : Heap) (ext : List JCell) (w : JVal)
    (hc : ∀ b, w = .vref b → b < h.length) :
    readArr (h ++ ext) w = readArr h w := by
  unfold readArr
  cases w with
  | vref b =>
    dsimp only
    rw [List.getElem?_append_left (hc b rfl)]
  | vstr _ => rfl
  | vnum _ => rfl
  | vnull => rfl
  | vundefined => rfl

/-- Reading a property of a value whose possible reference points into
`h` gives the same answer in any extension of `h`. -/
theorem readField_extend (h : Heap) (ext : List JCell) (w : JVal) (k : String)
    (hc : ∀ b, w = .vref b → b < h.length) :
    readField (h ++ ext) w k = readField h w k := by
  unfold readField
  cases w with
  | vref b =>
    dsimp only
    rw [List.getElem?_append_left (hc b rfl)]
  | vstr _ => rfl
  | vnum _ => rfl
  | vnull => rfl
  | vundefined => rfl

/-- A reference found among the elements read from a value in a closed
heap points into the heap. -/
theorem readArr_elem_ref_lt (h : Heap) (hclosed : HeapClosed h) (w b : JVal) (rb : Nat)
    (hb : b ∈ readArr h w) (hbr : b = .vref rb) : rb < h.length := by
  unfold readArr at hb
  cases w with
  | vref a =>
    dsimp only at hb
    revert hb
    cases ha : h[a]? with
    | none => intro hb; simp at hb
    | some cell =>
      cases cell with
      | obj _ => intro hb; simp at hb
      | arr es => intro hb; exact arrElem_ref_lt h hclosed a es ha b hb rb hbr
  | vstr _ => simp at hb
  | vnum _ => simp at hb
  | vnull => simp at hb
  | vundefined => simp at hb

/-- C1, counterexample: under the all-zero draw stream — where an actual
`shuffleArray` call on the two-word pool would reverse it — the shuffle
hands back the drag-and-drop question with its `blanks` structure (the
very same reference as the source's) and the per-blank option pool in
the original order: the pools are not reshuffled at all, refuting the
claim that `prepareSession` reshuffles `blanks[i].options`. -/
theorem C1_counterexample :
    (fisherYates [JVal.vstr "a", JVal.vstr "b"] (fun _ => 0) 0).1
        ≠ [JVal.vstr "a", JVal.vstr "b"] ∧
      readField C1res.1 C1resQ "blanks" = readField C1heap (.vref 4) "blanks" ∧
      readArr C1res.1 (readField C1res.1
          ((readArr C1res.1 (readField C1res.1 C1resQ "blanks")).headD .vundefined) "options")
        = [.vstr "a", .vstr "b"] := by
  refine ⟨by decide, by decide, by decide⟩

/-- C1, amended: `shuffleQuestionsAndAnswers` never reshuffles a
drag-and-drop question's per-blank option pools — each result question's
`blanks` field is the identical (shared, untouched) value of some source
question — while `correctOrder` and the ordered `sentencePart` values
(the sentence skeleton) are identical before and after the call, for
every source list. -/
theorem C1_amended_preserves_skeleton (h : Heap) (r : Nat) (qs : List JVal)
    (g : Nat → Nat) (c : Nat)
    (hclosed : HeapClosed h)
    (hr : h[r]? = some (.arr qs))
    (hwf : ∀ v ∈ qs, WFQ h v) :
    ∃ H rr c' qs', shuffleQuestionsAndAnswers h r g c = (H, rr, c') ∧
      H[rr]? = some (.arr qs') ∧ qs'.length = qs.length ∧
      ∀ v' ∈ qs', ∃ v ∈ qs,
        readField H v' "blanks" = readField h v "blanks" ∧
        readField H v' "correctOrder" = readField h v "correctOrder" ∧
        correctOrderVals H v' = correctOrderVals h v ∧
        sentenceParts H v' = sentenceParts h v := by
  have hwfq : ∀ v ∈ qs, IsQObj h v := fun v hv =>
    (hwf v hv).imp fun q hfs => hfs.imp fun fs hfs' => ⟨hfs'.1, hfs'.2.1⟩
  obtain ⟨H, rr, c', qs', heq, ⟨ext, hH⟩, hge, hgetrr, hlen, hcopy⟩ :=
    shuffleQuestionsAndAnswers_spec h r qs g c hr hwfq
  refine ⟨H, rr, c', qs', heq, hgetrr, hlen, ?_⟩
  intro v' hv'
  obtain ⟨v, hvmem, q, fs, r', fs', hveq, hq, hveq', hge', hget', hpres⟩ := hcopy v' hv'
  have hbl : getField fs' "blanks" = getField fs "blanks" :=
    hpres "blanks" (by decide) (by decide)
  have hco : getField fs' "correctOrder" = getField fs "correctOrder" :=
    hpres "correctOrder" (by decide) (by decide)
  have hfb : readField H v' "blanks" = getField fs "blanks" := by
    rw [hveq', readField_obj H r' fs' _ hget', hbl]
  have hfc : readField H v' "correctOrder" = getField fs "correctOrder" := by
    rw [hveq', readField_obj H r' fs' _ hget', hco]
  have hsb : readField h v "blanks" = getField fs "blanks" := by
    rw [hveq, readField_obj h q fs _ hq]
  have hsc : readField h v "correctOrder" = getField fs "correctOrder" := by
    rw [hveq, readField_obj h q fs _ hq]
  have hWb : ∀ b, getField fs "blanks" = .vref b → b < h.length := fun b hb =>
    getField_ref_lt h hclosed q fs hq "blanks" b hb
  have hWc : ∀ b, getField fs "correctOrder" = .vref b → b < h.length := fun b hb =>
    getField_ref_lt h hclosed q fs hq "correctOrder" b hb
  refine ⟨v, hvmem, by rw [hfb, hsb], by rw [hfc, hsc], ?_, ?_⟩
  · unfold correctOrderVals
    rw [hfc, hsc, hH, readArr_extend h ext _ hWc]
  · unfold sentenceParts
    rw [hfb, hsb, hH, readArr_extend h ext _ hWb]
    refine List.map_congr_left ?_
    intro b hb
    exact readField_extend h ext b "sentencePart" fun rb hbr =>
      readArr_elem_ref_lt h hclosed _ b rb hb hbr

/-- C1, witness for the amended theorem at the concrete one-question
bank `C1heap`. -/
theorem C1_witness :
    ∃ H rr c' qs', shuffleQuestionsAndAnswers C1heap 5 (fun _ => 0) 0 = (H, rr, c') ∧
      H[rr]? = some (.arr qs') ∧ qs'.length = ([JVal.vref 4] : List JVal).length ∧
      ∀ v' ∈ qs', ∃ v ∈ ([JVal.vref 4] : List JVal),
        readField H v' "blanks" = readField C1heap v "blanks" ∧
        readField H v' "correctOrder" = readField C1heap v "correctOrder" ∧
        correctOrderVals H v' = correctOrderVals C1heap v ∧
        sentenceParts H v' = sentenceParts C1heap v :=
  C1_amended_preserves_skeleton C1heap 5 [JVal.vref 4] (fun _ => 0) 0
    (by unfold HeapClosed; decide) (by decide)
    (fun v hv => by
      simp only [List.mem_singleton] at hv
      subst hv
      exact ⟨4, [("type", .vstr "drag_and_drop"), ("blanks", .vref 2),
        ("correctOrder", .vref 3)], rfl, by decide,
        fun habs => absurd habs (by decide)⟩)

/-- C2, counterexample: the shuffled result's question shares its
`correctOrder` array (reference 3) with the source question; writing
`"MUT"` into that nested array through the result changes what the
source question reads, refuting the claim that mutating any nested-array
field of a result never changes the source. -/
theorem C2_counterexample :
    readField C2res.1 C2resQ "correctOrder" = .vref 3 ∧
      readField C2heap (.vref 4) "correctOrder" = .vref 3 ∧
      correctOrderVals C2heap (.vref 4) = [.vstr "quickly", .vstr "run"] ∧
      correctOrderVals C2mutated (.vref 4) = [.vstr "MUT", .vstr "run"] := by
  refine ⟨by decide, by decide, by decide, by decide⟩

/-- C2, amended: the shuffler never mutates existing cells — it only
allocates.  Both the result array and every result question object are
fresh cells, and two successive calls on the same source (page load and
`restartQuiz`) allocate disjoint fresh regions.  Consequently mutating a
question-level field of one result (overwriting its fresh object cell)
never changes the source region or the other result's question objects.
Untouched nested arrays (drag-and-drop `blanks`, `correctOrder`) are,
however, shared references into the source, where mutation is visible
from the source (`C2_counterexample`). -/
theorem C2_amended_fresh_copies (h : Heap) (r : Nat) (qs : List JVal)
    (g1 g2 : Nat → Nat) (c1 c2 : Nat)
    (hr : h[r]? = some (.arr qs)) (hwf : ∀ v ∈ qs, WFQ h v) :
    ∃ H1 r1 d1 qs1 H2 r2 d2 qs2,
      shuffleQuestionsAndAnswers h r g1 c1 = (H1, r1, d1) ∧
      shuffleQuestionsAndAnswers H1 r g2 c2 = (H2, r2, d2) ∧
      H1[r1]? = some (.arr qs1) ∧ H2[r2]? = some (.arr qs2) ∧
      (∀ i, i < h.length → H1[i]? = h[i]?) ∧
      (∀ i, i < H1.length → H2[i]? = H1[i]?) ∧
      h.length ≤ r1 ∧ H1.length ≤ r2 ∧
      (∀ v ∈ qs1, ∃ a, v = .vref a ∧ h.length ≤ a ∧ a < H1.length) ∧
      (∀ v ∈ qs2, ∃ a, v = .vref a ∧ H1.length ≤ a ∧ a < H2.length) ∧
      (∀ a, h.length ≤ a → a < H1.length → ∀ cell,
        (∀ i, i < h.length → (H2.set a cell)[i]? = h[i]?) ∧
        (∀ b, H1.length ≤ b → (H2.set a cell)[b]? = H2[b]?)) ∧
      (∀ a, H1.length ≤ a → ∀ cell, ∀ i, i < H1.length →
        (H2.set a cell)[i]? = H2[i]?) := by
  have hwfq : ∀ v ∈ qs, IsQObj h v := fun v hv =>
    (hwf v hv).imp fun q hfs => hfs.imp fun fs hfs' => ⟨hfs'.1, hfs'.2.1⟩
  obtain ⟨H1, r1, d1, qs1, heq1, ⟨e1, he1⟩, hge1, hget1, hlen1, hcopy1⟩ :=
    shuffleQuestionsAndAnswers_spec h r qs g1 c1 hr hwfq
  have hrlt : r < h.length := (List.getElem?_eq_some.mp hr).1
  have hpres1 : ∀ i, i < h.length → H1[i]? = h[i]? := by
    intro i hi
    rw [he1]
    exact List.getElem?_append_left hi
  have hr1 : H1[r]? = some (.arr qs) := by
    rw [hpres1 r hrlt]
    exact hr
  have hwfq1 : ∀ v ∈ qs, IsQObj H1 v := fun v hv => by
    rw [he1]
    exact IsQObj_extend h e1 v (hwfq v hv)
  obtain ⟨H2, r2, d2, qs2, heq2, ⟨e2, he2⟩, hge2, hget2, hlen2, hcopy2⟩ :=
    shuffleQuestionsAndAnswers_spec H1 r qs g2 c2 hr1 hwfq1
  have hpres2 : ∀ i, i < H1.length → H2[i]? = H1[i]? := by
    intro i hi
    rw [he2]
    exact List.getElem?_append_left hi
  have hfresh1 : ∀ v ∈ qs1, ∃ a, v = .vref a ∧ h.length ≤ a ∧ a < H1.length := by
    intro v hv
    obtain ⟨-, -, -, -, a, fs', -, -, hveq', hgea, hgeta, -⟩ := hcopy1 v hv
    exact ⟨a, hveq', hgea, (List.getElem?_eq_some.mp hgeta).1⟩
  have hfresh2 : ∀ v ∈ qs2, ∃ a, v = .vref a ∧ H1.length ≤ a ∧ a < H2.length := by
    intro v hv
    obtain ⟨-, -, -, -, a, fs', -, -, hveq', hgea, hgeta, -⟩ := hcopy2 v hv
    exact ⟨a, hveq', hgea, (List.getElem?_eq_some.mp hgeta).1⟩
  refine ⟨H1, r1, d1, qs1, H2, r2, d2, qs2, heq1, heq2, hget1, hget2,
    hpres1, hpres2, hge1, hge2, hfresh1, hfresh2, ?_, ?_⟩
  · intro a hage halt cell
    constructor
    · intro i hi
      have hia : i ≠ a := by omega
      rw [List.getElem?_set_ne hia.symm, hpres2 i (by omega), hpres1 i hi]
    · intro b hb
      have hba : b ≠ a := by omega
      rw [List.getElem?_set_ne hba.symm]
  · intro a ha cell i hi
    have hia : i ≠ a := by omega
    rw [List.getElem?_set_ne hia.symm]

/-- C2, witness for the amended theorem at the concrete one-question
bank `C2heap`, with two successive shuffles as on load and restart. -/
theorem C2_witness :
    ∃ H1 r1 d1 qs1 H2 r2 d2 qs2,
      shuffleQuestionsAndAnswers C2heap 5 (fun _ => 0) 0 = (H1, r1, d1) ∧
      shuffleQuestionsAndAnswers H1 5 (fun _ => 1) 0 = (H2, r2, d2) ∧
      H1[r1]? = some (.arr qs1) ∧ H2[r2]? = some (.arr qs2) ∧
      (∀ i, i < C2heap.length → H1[i]? = C2heap[i]?) ∧
      (∀ i, i < H1.length → H2[i]? = H1[i]?) ∧
      C2heap.length ≤ r1 ∧ H1.length ≤ r2 ∧
      (∀ v ∈ qs1, ∃ a, v = .vref a ∧ C2heap.length ≤ a ∧ a < H1.length) ∧
      (∀ v ∈ qs2, ∃ a, v = .vref a ∧ H1.length ≤ a ∧ a < H2.length) ∧
      (∀ a, C2heap.length ≤ a → a < H1.length → ∀ cell,
        (∀ i, i < C2heap.length → (H2.set a cell)[i]? = C2heap[i]?) ∧
        (∀ b, H1.length ≤ b → (H2.set a cell)[b]? = H2[b]?)) ∧
      (∀ a, H1.length ≤ a → ∀ cell, ∀ i, i < H1.length →
        (H2.set a cell)[i]? = H2[i]?) :=
  C2_amended_fresh_copies C2heap 5 [JVal.vref 4] (fun _ => 0) (fun _ => 1) 0 0
    (by decide)
    (fun v hv => by
      simp only [List.mem_singleton] at hv
      subst hv
      exact ⟨4, [("type", .vstr "drag_and_drop"), ("blanks", .vref 2),
        ("correctOrder", .vref 3)], rfl, by decide,
        fun habs => absurd habs (by decide)⟩)
